import Mathlib

/-! # deno_json_db: the collection store of `src/index.js`

A shallow embedding of the `Database` class (find, insert, update, delete and the
update-signature validator) together with the JavaScript operations those methods
rely on: own-property lookup and assignment, property enumeration order, strict
equality, truthiness, string-to-integer conversion and `Array.prototype.splice`.

Conventions of the embedding.

* A collection file holds a JSON array of documents; a document is an object.  The
  decoded content of a file is a `List Doc`.  Files whose text is not a JSON array of
  objects are outside the model.
* Finite numbers are represented by integers; `+0` and `-0` are identified (the program
  only observes numbers through `===`, truthiness and JSON encoding, none of which
  separates the two zeros).  `NaN` and the infinities are separate run-time values.
* Values supplied by a caller (`JsVal`) are JSON values or one of `undefined`, `NaN`,
  `±Infinity`.  Functions, symbols and objects with accessors are outside the model.
* An object is the list of its own enumerable string-keyed properties in insertion
  order.  Enumeration (`Object.keys`, `for ... in`) goes through `ownKeys`, which puts
  array-index keys first in ascending order.
* The run time is Deno: class bodies are strict-mode code and `Object.prototype` carries
  no `__proto__` accessor, so `__proto__` is an ordinary property name.
-/

namespace JsonDb

/-! ## Values -/

/-- JSON values, as produced by `JSON.parse`. -/
inductive Json where
  | null
  | bool (b : Bool)
  | num (n : Int)
  | str (s : String)
  | arr (items : List Json)
  | obj (fields : List (String × Json))
  deriving Repr, Inhabited

mutual
/-- Decision procedure for equality of JSON values. -/
def Json.decEq : (a b : Json) → Decidable (a = b)
  | .null, .null => isTrue rfl
  | .bool a, .bool b =>
    if h : a = b then isTrue (by rw [h]) else isFalse (by intro e; cases e; exact h rfl)
  | .num a, .num b =>
    if h : a = b then isTrue (by rw [h]) else isFalse (by intro e; cases e; exact h rfl)
  | .str a, .str b =>
    if h : a = b then isTrue (by rw [h]) else isFalse (by intro e; cases e; exact h rfl)
  | .arr a, .arr b =>
    match Json.decEqList a b with
    | isTrue h => isTrue (by rw [h])
    | isFalse h => isFalse (by intro e; cases e; exact h rfl)
  | .obj a, .obj b =>
    match Json.decEqFields a b with
    | isTrue h => isTrue (by rw [h])
    | isFalse h => isFalse (by intro e; cases e; exact h rfl)
  | .null, .bool _ | .null, .num _ | .null, .str _ | .null, .arr _ | .null, .obj _
  | .bool _, .null | .bool _, .num _ | .bool _, .str _ | .bool _, .arr _ | .bool _, .obj _
  | .num _, .null | .num _, .bool _ | .num _, .str _ | .num _, .arr _ | .num _, .obj _
  | .str _, .null | .str _, .bool _ | .str _, .num _ | .str _, .arr _ | .str _, .obj _
  | .arr _, .null | .arr _, .bool _ | .arr _, .num _ | .arr _, .str _ | .arr _, .obj _
  | .obj _, .null | .obj _, .bool _ | .obj _, .num _ | .obj _, .str _ | .obj _, .arr _ =>
    isFalse (by intro e; cases e)
/-- Decision procedure for equality of lists of JSON values. -/
def Json.decEqList : (a b : List Json) → Decidable (a = b)
  | [], [] => isTrue rfl
  | [], _ :: _ => isFalse (by intro e; cases e)
  | _ :: _, [] => isFalse (by intro e; cases e)
  | x :: xs, y :: ys =>
    match Json.decEq x y, Json.decEqList xs ys with
    | isTrue h, isTrue h' => isTrue (by rw [h, h'])
    | isFalse h, _ => isFalse (by intro e; cases e; exact h rfl)
    | _, isFalse h => isFalse (by intro e; cases e; exact h rfl)
/-- Decision procedure for equality of JSON object field lists. -/
def Json.decEqFields : (a b : List (String × Json)) → Decidable (a = b)
  | [], [] => isTrue rfl
  | [], _ :: _ => isFalse (by intro e; cases e)
  | _ :: _, [] => isFalse (by intro e; cases e)
  | (k, x) :: xs, (l, y) :: ys =>
    if hk : k = l then
      match Json.decEq x y, Json.decEqFields xs ys with
      | isTrue h, isTrue h' => isTrue (by rw [hk, h, h'])
      | isFalse h, _ => isFalse (by intro e; cases e; exact h rfl)
      | _, isFalse h => isFalse (by intro e; cases e; exact h rfl)
    else isFalse (by intro e; cases e; exact hk rfl)
end

instance : DecidableEq Json := Json.decEq

/-- A stored document: the own properties of a decoded JSON object. -/
abbrev Doc := List (String × Json)

/-- A run-time value handed in by a caller: a JSON value, `undefined`, `NaN` or an
infinity. -/
inductive JsVal where
  | undefined
  | nan
  | inf (negative : Bool)
  | json (j : Json)
  deriving DecidableEq, Repr, Inhabited

/-- A run-time object supplied by a caller (a filter, a `$set` object, a document to
insert), or a decoded document after assignments. -/
abbrev JsObj := List (String × JsVal)

/-- ToBoolean: the truthiness of a value. -/
def toBoolean : JsVal → Bool
  | .undefined => false
  | .nan => false
  | .inf _ => true
  | .json .null => false
  | .json (.bool b) => b
  | .json (.num n) => n != 0
  | .json (.str s) => s != ""
  | .json (.arr _) => true
  | .json (.obj _) => true

/-- The `===` operator.  Arrays and objects are compared by reference; the two operands
compared by this program never share a reference (one is freshly decoded from the file
or is a literal of the source), so such a comparison is `false`. -/
def strictEquals : JsVal → JsVal → Bool
  | .undefined, .undefined => true
  | .inf a, .inf b => a == b
  | .json .null, .json .null => true
  | .json (.bool a), .json (.bool b) => a == b
  | .json (.num a), .json (.num b) => a == b
  | .json (.str a), .json (.str b) => a == b
  | _, _ => false

/-! ## Property keys and enumeration order -/

/-- Value of a string of decimal digits, `none` if some character is not a digit. -/
def digitsValue (acc : Nat) : List Char → Option Nat
  | [] => some acc
  | c :: cs => if c.isDigit then digitsValue (acc * 10 + (c.toNat - 48)) cs else none

/-- A non-empty string of decimal digits read as a natural number. -/
def decimalNat? (s : String) : Option Nat :=
  match s.data with
  | [] => none
  | c :: cs => digitsValue 0 (c :: cs)

/-- CanonicalNumericIndexString restricted to the naturals: `some n` when `s` is exactly
the decimal representation of `n`. -/
def canonicalNat? (s : String) : Option Nat :=
  match decimalNat? s with
  | some n => if toString n = s then some n else none
  | none => none

/-- An array index: a canonical numeric string below `2^32 - 1`. -/
def arrayIndex? (s : String) : Option Nat :=
  match canonicalNat? s with
  | some n => if n < 4294967295 then some n else none
  | none => none

/-- OrdinaryOwnPropertyKeys on string keys (`Object.keys`, `for ... in` on a plain
object): array-index keys in ascending numeric order, then the remaining keys in
insertion order. -/
def ownKeys {α : Type} (fields : List (String × α)) : List String :=
  ((fields.filterMap (fun p => arrayIndex? p.1)).insertionSort (fun a b => a ≤ b)).map toString
    ++ (fields.filter (fun p => (arrayIndex? p.1).isNone)).map Prod.fst

/-- Own-property lookup. -/
def getOwn {α : Type} : List (String × α) → String → Option α
  | [], _ => none
  | (k, v) :: rest, key => if k = key then some v else getOwn rest key

/-- Own-property test against the fields of an object. -/
def hasOwn {α : Type} (fields : List (String × α)) (key : String) : Bool :=
  (getOwn fields key).isSome

/-- Reading `object[key]` on a caller-supplied plain object: the own value, else
`undefined`. -/
def getValue (object : JsObj) (key : String) : JsVal :=
  (getOwn object key).getD .undefined

/-- The assignment `object[key] = value` on a plain object: overwrite in place or append. -/
def assign {α : Type} : List (String × α) → String → α → List (String × α)
  | [], key, value => [(key, value)]
  | (k, v) :: rest, key, value =>
    if k = key then (k, value) :: rest else (k, v) :: assign rest key value

/-- `Object.entries`: the own properties in enumeration order. -/
def entries {α : Type} (fields : List (String × α)) : List (String × α) :=
  (ownKeys fields).filterMap (fun k => (getOwn fields k).map (fun v => (k, v)))

/-! ## JSON encoding and decoding of documents -/

/-- A decoded document seen as a run-time object. -/
def Doc.toObject (d : Doc) : JsObj := d.map (fun p => (p.1, JsVal.json p.2))

/-- SerializeJSONProperty for a property value: `undefined` is omitted, non-finite numbers
become `null`. -/
def JsVal.toJson? : JsVal → Option Json
  | .undefined => none
  | .nan => some .null
  | .inf _ => some .null
  | .json j => some j

/-- The document read back after `JSON.stringify` of a run-time object.  The list keeps
the order in which the object holds its properties; enumeration order is always taken
through `ownKeys`. -/
def stringifyObject (o : JsObj) : Doc :=
  o.filterMap (fun p => (JsVal.toJson? p.2).map (fun j => (p.1, j)))

/-- The array read back after `JSON.stringify` of an array of run-time objects. -/
def stringify (xs : List JsObj) : List Doc := xs.map stringifyObject

/-! ## String to integer conversion and `splice` -/

/-- Result of ToIntegerOrInfinity. -/
inductive IntegerOrInfinity where
  | fin (i : Int)
  | posInf
  | negInf
  deriving DecidableEq, Repr

/-- StrWhiteSpaceChar: white space and line terminators. -/
def isStrWhiteSpace (c : Char) : Bool :=
  let n := c.toNat
  n == 9 || n == 10 || n == 11 || n == 12 || n == 13 || n == 32 || n == 160 || n == 5760
    || (8192 ≤ n && n ≤ 8202) || n == 8232 || n == 8233 || n == 8239 || n == 8287
    || n == 12288 || n == 65279

/-- A string with leading and trailing white space removed. -/
def trimWhiteSpace (cs : List Char) : List Char :=
  ((cs.dropWhile isStrWhiteSpace).reverse.dropWhile isStrWhiteSpace).reverse

/-- Value of one digit in the given radix. -/
def radixDigit? (radix : Nat) (c : Char) : Option Nat :=
  let v : Option Nat :=
    if c.isDigit then some (c.toNat - 48)
    else if 97 ≤ c.toNat ∧ c.toNat ≤ 102 then some (c.toNat - 87)
    else if 65 ≤ c.toNat ∧ c.toNat ≤ 70 then some (c.toNat - 55)
    else none
  v.bind (fun d => if d < radix then some d else none)

/-- Value of a digit string in the given radix. -/
def radixValue (radix : Nat) (acc : Nat) : List Char → Option Nat
  | [] => some acc
  | c :: cs =>
    match radixDigit? radix c with
    | some d => radixValue radix (acc * radix + d) cs
    | none => none

/-- NonDecimalIntegerLiteral: `0x`, `0o` and `0b` literals. -/
def nonDecimalLiteral? : List Char → Option Nat
  | '0' :: x :: d :: ds =>
    if x = 'x' ∨ x = 'X' then radixValue 16 0 (d :: ds)
    else if x = 'o' ∨ x = 'O' then radixValue 8 0 (d :: ds)
    else if x = 'b' ∨ x = 'B' then radixValue 2 0 (d :: ds)
    else none
  | _ => none

/-- The digits of an ExponentPart after the `e`, with their sign. -/
def exponentValue? : List Char → Option Int
  | '+' :: c :: cs => (digitsValue 0 (c :: cs)).map (fun n => (n : Int))
  | '-' :: c :: cs => (digitsValue 0 (c :: cs)).map (fun n => -(n : Int))
  | c :: cs => (digitsValue 0 (c :: cs)).map (fun n => (n : Int))
  | [] => none

/-- StrUnsignedDecimalLiteral other than `Infinity`, truncated to an integer.  The exact
decimal value is truncated; JavaScript first rounds the value to a double, which is
only visible on literals with more than fifteen significant digits. -/
def unsignedDecimal? (cs : List Char) : Option Nat :=
  let intPart := cs.takeWhile Char.isDigit
  let afterInt := cs.dropWhile Char.isDigit
  let fracPart := match afterInt with
    | '.' :: r => r.takeWhile Char.isDigit
    | _ => []
  let afterFrac := match afterInt with
    | '.' :: r => r.dropWhile Char.isDigit
    | r => r
  if intPart.isEmpty && fracPart.isEmpty then none
  else
    let exponent : Option Int := match afterFrac with
      | [] => some 0
      | e :: r => if e = 'e' ∨ e = 'E' then exponentValue? r else none
    match exponent, digitsValue 0 (intPart ++ fracPart) with
    | some e, some m =>
      let scale : Int := e - fracPart.length
      if 0 ≤ scale then some (m * 10 ^ scale.toNat) else some (m / 10 ^ (-scale).toNat)
    | _, _ => none

/-- ToIntegerOrInfinity(ToNumber(s)) for a string: `NaN` becomes `0`. -/
def stringToIntegerOrInfinity (s : String) : IntegerOrInfinity :=
  match decimalNat? s with
  | some n => .fin n
  | none =>
    let cs := trimWhiteSpace s.data
    if cs.isEmpty then .fin 0
    else
      match nonDecimalLiteral? cs with
      | some n => .fin n
      | none =>
        let negative := match cs with
          | '-' :: _ => true
          | _ => false
        let body := match cs with
          | '+' :: r => r
          | '-' :: r => r
          | r => r
        if body = "Infinity".data then (if negative then .negInf else .posInf)
        else
          match unsignedDecimal? body with
          | some n => .fin (if negative then -(n : Int) else n)
          | none => .fin 0

/-- ToIntegerOrInfinity of `Object.keys(o)[0]`: a string, or `undefined` (which is `NaN`,
hence `0`) when the object has no key. -/
def toIntegerOrInfinity : Option String → IntegerOrInfinity
  | none => .fin 0
  | some s => stringToIntegerOrInfinity s

/-- The call `xs.splice(start, 1)`: the array after the removal. -/
def splice1 {α : Type} (xs : List α) (start : IntegerOrInfinity) : List α :=
  let len := xs.length
  let actualStart : Nat := match start with
    | .negInf => 0
    | .posInf => len
    | .fin i => if i < 0 then ((len : Int) + i).toNat else min i.toNat len
  xs.eraseIdx actualStart

/-! ## Responses, errors and the file system -/

/-- The `message` of a response: a text, or an array of objects (documents, or the
single-entry objects `{index: document}`). -/
inductive Message where
  | text (s : String)
  | docs (ds : List Doc)
  deriving DecidableEq, Repr

/-- The `{status, message}` object returned by every operation. -/
structure Response where
  status : Bool
  message : Message
  deriving DecidableEq, Repr

/-- Returns a response object. -/
def getResponse (status : Bool) (message : Message) : Response :=
  { status := status, message := message }

/-- String conversion of a message, as in `new Error(message)` and `message + "..."`. -/
def Message.toText : Message → String
  | .text s => s
  | .docs ds => ",".intercalate (ds.map (fun _ => "[object Object]"))

/-- Ways in which a call ends without returning a response: a `TypeError` raised by the
run time, an `Error` raised by a `throw` of the source, or a step whose effect lies
outside the model (an assignment to a member of a built-in prototype). -/
inductive Abort where
  | typeError
  | error (message : String)
  | unmodelled
  deriving DecidableEq, Repr

/-- The files under the database directory.  `files p = none` is a missing file
(`Deno.errors.NotFound` on read); `writeError p = some e` makes `Deno.writeFile` on `p`
fail with `e`. -/
structure FileSystem where
  files : String → Option (List Doc)
  writeError : String → Option String

/-- The database handler: the root directory path. -/
structure Database where
  path : String

/-- The directory separator of the handler. -/
def Database.seperator (_db : Database) : String := "/"

/-- Returns the current db directory. -/
def Database.directory (db : Database) : String := db.path ++ db.seperator

/-- Returns a collection default path. -/
def Database.collectionPath (db : Database) (name : String) : String :=
  db.directory ++ name ++ ".json"

/-- Writes the updated object to the file: the file system afterwards and the error of
`Deno.writeFile`, if any.  A failing write is taken to fail before the file is touched;
what a write that fails after truncating the file leaves behind is not a JSON array and
lies outside the model. -/
def submit (fs : FileSystem) (path : String) (content : List Doc) :
    FileSystem × Option String :=
  match fs.writeError path with
  | some e => (fs, some e)
  | none =>
    ({ fs with files := fun p => if p = path then some content else fs.files p }, none)

deriving instance DecidableEq for Except

/-- What a mutating call leaves behind: the file system and either the returned response
or the way the call was aborted. -/
structure Outcome where
  fs : FileSystem
  result : Except Abort Response

/-! ## The update-signature validator -/

/-- What `validateUpdateSignature` returns: a boolean or a response object. -/
inductive Validation where
  | bool (b : Bool)
  | response (r : Response)
  deriving DecidableEq, Repr

/-- An update request: the top-level keys with the objects they hold. -/
abbrev UpdateRequest := List (String × JsObj)

/-- Checks if the value is falsy: `value === false || value === 0 || value === -0`. -/
def isfalsyValue (value : JsVal) : Bool :=
  strictEquals value (.json (.bool false)) || strictEquals value (.json (.num 0))
    || strictEquals value (.json (.num (-0)))

/-- The inner loop of `validateUpdateSignature` over the keys of one sub-object: `some r`
when the loop returns `r`, `none` when it runs to its end. -/
def validateObject (updateObject : JsObj) : List String → Option Validation
  | [] => none
  | updateKey :: rest =>
    if updateKey = "_id" then
      some (.response (getResponse false (.text "Cannot update _id it is system generated value")))
    else if !toBoolean (getValue updateObject updateKey)
        && !isfalsyValue (getValue updateObject updateKey) then
      some (.bool false)
    else validateObject updateObject rest

/-- The outer loop of `validateUpdateSignature` over `Object.entries(update)`. -/
def validateEntries : List (String × JsObj) → Validation
  | [] => .bool true
  | (_, updateObject) :: rest =>
    match validateObject updateObject (ownKeys updateObject) with
    | some r => r
    | none => validateEntries rest

/-- The recognised top-level keys. -/
def validFilters : List String := ["$find", "$set"]

/-- Validates the update object. -/
def validateUpdateSignature (update : UpdateRequest) : Validation :=
  if !(ownKeys update).all (fun key => validFilters.contains key) then .bool false
  else validateEntries (entries update)

/-! ## find -/

/-- Checks if an object is empty.  For `undefined` the source returns `undefined`, which
is falsy. -/
def isEmpty (object : Option JsObj) : Bool :=
  match object with
  | none => false
  | some o => (ownKeys o).length == 0

/-- The callback of `data.filter` in `find`, run over the keys of the filter.
`each.hasOwnProperty` is looked up on the document itself: when the document has an own
field of that name its (JSON) value is not callable and the call raises a `TypeError`. -/
def filterCallback (filterParam : JsObj) (each : Doc) : List String → Except Abort Bool
  | [] => .ok true
  | filterKey :: rest =>
    let element := getValue filterParam filterKey
    if hasOwn each "hasOwnProperty" then .error .typeError
    else
      match getOwn each filterKey with
      | none => .ok false
      | some value =>
        if !strictEquals (.json value) element then .ok false
        else filterCallback filterParam each rest

/-- The call `data.filter((each, index) => ...)` of `find` from position `index` on: the
kept documents and the `{[index]: each}` objects pushed to `dataByIndex`. -/
def filterFrom (filterParam : JsObj) : Nat → List Doc → Except Abort (List Doc × List Doc)
  | _, [] => .ok ([], [])
  | index, each :: rest =>
    match filterCallback filterParam each (ownKeys filterParam) with
    | .error e => .error e
    | .ok keep =>
      match filterFrom filterParam (index + 1) rest with
      | .error e => .error e
      | .ok (filterData, dataByIndex) =>
        if keep then
          .ok (each :: filterData, [(toString index, Json.obj each)] :: dataByIndex)
        else .ok (filterData, dataByIndex)

/-- Fetches the data object from a collection.  The call only reads the file. -/
def Database.find (db : Database) (fs : FileSystem) (name : String)
    (filterParam : Option JsObj) (getByIndex : Bool) : Except Abort Response :=
  match fs.files (db.collectionPath name) with
  | none =>
    .ok (getResponse false
      (.text ("There is no " ++ name ++ " collection available, Try creating one first.")))
  | some data =>
    let isFilterParamEmpty := isEmpty filterParam
    let filtered : Except Abort (List Doc × List Doc) :=
      match filterParam with
      | some f => if !isFilterParamEmpty then filterFrom f 0 data else .ok (data, [])
      | none => .ok (data, [])
    match filtered with
    | .error e => .error e
    | .ok (filterData, dataByIndex) =>
      .ok (getResponse true
        (.docs (if getByIndex && !isFilterParamEmpty then dataByIndex else filterData)))

/-! ## insert -/

/-- Inserts a record into the respective collection.  `uuid` is the value read from
`this.randomUUID`. -/
def Database.insert (db : Database) (fs : FileSystem) (uuid : String) (name : String)
    (data : JsObj) : Outcome :=
  if toBoolean (getValue data "_id") then
    { fs := fs
      result := .ok (getResponse false (.text "Cannot set _id value it is system generated value")) }
  else
    let insertData := assign data "_id" (.json (.str uuid))
    let file := db.collectionPath name
    match db.find fs name none false with
    | .error e => { fs := fs, result := .error e }
    | .ok dataObject =>
      let toWrite : Except Abort (List JsObj) :=
        if dataObject.status then
          match dataObject.message with
          | .docs data => .ok (data.map Doc.toObject ++ [insertData])
          | .text _ => .error .typeError
        else .ok [insertData]
      match toWrite with
      | .error e => { fs := fs, result := .error e }
      | .ok insertData =>
        match submit fs file (stringify insertData) with
        | (fs', some _) =>
          { fs := fs', result := .ok (getResponse false (.text "Error inserting data")) }
        | (fs', none) =>
          { fs := fs', result := .ok (getResponse true (.text "Data inserted")) }

/-! ## update -/

/-- String-keyed members an array inherits from `Array.prototype` and `Object.prototype`
(ECMAScript 2023, with the `__proto__` accessor removed as Deno does). -/
def arrayPrototypeKeys : List String :=
  ["at", "concat", "constructor", "copyWithin", "entries", "every", "fill", "filter", "find",
   "findIndex", "findLast", "findLastIndex", "flat", "flatMap", "forEach", "includes",
   "indexOf", "join", "keys", "lastIndexOf", "map", "pop", "push", "reduce", "reduceRight",
   "reverse", "shift", "slice", "some", "sort", "splice", "toLocaleString", "toReversed",
   "toSorted", "toSpliced", "toString", "unshift", "values", "with", "hasOwnProperty",
   "isPrototypeOf", "propertyIsEnumerable", "valueOf", "__defineGetter__",
   "__defineSetter__", "__lookupGetter__", "__lookupSetter__"]

/-- What `dbData[index]` evaluates to for an array of documents: one of its elements,
`undefined`, the number `dbData.length`, or an inherited built-in. -/
inductive Target where
  | element (i : Nat)
  | undefined
  | number
  | inherited
  deriving DecidableEq, Repr

/-- The property key used for `Object.keys(o)[0]`: the key, or the string `"undefined"`
when the object has no key. -/
def propertyKey : Option String → String
  | none => "undefined"
  | some k => k

/-- Classifies the read `dbData[key]` on an array of length `len`. -/
def arrayProperty (len : Nat) (key : String) : Target :=
  match canonicalNat? key with
  | some i => if i < len then .element i else .undefined
  | none =>
    if key = "length" then .number
    else if arrayPrototypeKeys.contains key then .inherited
    else .undefined

/-- Applies `f` to the element at position `i`. -/
def modifyAt {α : Type} (f : α → α) : Nat → List α → List α
  | _, [] => []
  | 0, x :: xs => f x :: xs
  | i + 1, x :: xs => x :: modifyAt f i xs

/-- The inner loop of `update`: `dbData[index][updateKey] = setData[updateKey]` for each
key of `setData`.  Assigning to a property of `undefined` or (in strict mode) of a number
raises a `TypeError`. -/
def setLoop (setData : JsObj) (index : String) :
    List JsObj → List String → Except Abort (List JsObj)
  | dbData, [] => .ok dbData
  | dbData, updateKey :: rest =>
    match arrayProperty dbData.length index with
    | .element i =>
      setLoop setData index
        (modifyAt (fun doc => assign doc updateKey (getValue setData updateKey)) i dbData) rest
    | .undefined => .error .typeError
    | .number => .error .typeError
    | .inherited => .error .unmodelled

/-- The outer loop of `update` over the entries of `filteredData`.  An absent `$set`
(`undefined`) has nothing to enumerate. -/
def updateLoop (setData : Option JsObj) :
    List JsObj → List Doc → Except Abort (List JsObj)
  | dbData, [] => .ok dbData
  | dbData, dataAndIndex :: rest =>
    let index := propertyKey (ownKeys dataAndIndex).head?
    let result : Except Abort (List JsObj) :=
      match setData with
      | none => .ok dbData
      | some s => setLoop s index dbData (ownKeys s)
    match result with
    | .error e => .error e
    | .ok dbData' => updateLoop setData dbData' rest

/-- Takes in the name of the collection and the update object; if the update object
signature is valid, sets the `$set` fields on the documents found by `$find`. -/
def Database.update (db : Database) (fs : FileSystem) (name : String)
    (updateData : UpdateRequest) : Outcome :=
  match validateUpdateSignature updateData with
  | .response response => { fs := fs, result := .ok response }
  | .bool false =>
    { fs := fs
      result := .ok (getResponse false (.text
        "Invalid Update Data Object Signature. Please call updateSignature() to check the valid object signature")) }
  | .bool true =>
    let filterParam := getOwn updateData "$find"
    let setData := getOwn updateData "$set"
    match db.find fs name filterParam true with
    | .error e => { fs := fs, result := .error e }
    | .ok findResponse =>
      if !findResponse.status then
        { fs := fs, result := .ok (getResponse false findResponse.message) }
      else
        match db.find fs name none false with
        | .error e => { fs := fs, result := .error e }
        | .ok dbResponse =>
          if !dbResponse.status then
            { fs := fs, result := .error (.error dbResponse.message.toText) }
          else
            match findResponse.message, dbResponse.message with
            | .docs filteredData, .docs dbData =>
              match updateLoop setData (dbData.map Doc.toObject) filteredData with
              | .error e => { fs := fs, result := .error e }
              | .ok dbData' =>
                match submit fs (db.collectionPath name) (stringify dbData') with
                | (fs', some submitError) =>
                  { fs := fs'
                    result := .ok (getResponse false
                      (.text ("Error while updating data" ++ "\n" ++ submitError))) }
                | (fs', none) =>
                  { fs := fs', result := .ok (getResponse true (.text "Data Updated")) }
            | _, _ => { fs := fs, result := .error .unmodelled }

/-! ## delete -/

/-- The loop of `delete`: `dbData.splice(Object.keys(dataAndIndex)[0], 1)` for each entry
of `filteredData`. -/
def deleteLoop : List Doc → List Doc → List Doc
  | dbData, [] => dbData
  | dbData, dataAndIndex :: rest =>
    deleteLoop (splice1 dbData (toIntegerOrInfinity (ownKeys dataAndIndex).head?)) rest

/-- Takes in the collection and delete parameters, finds the matching objects and removes
them from the collection.  Decoded documents hold JSON values only, so `JSON.stringify`
writes them back as they are. -/
def Database.delete (db : Database) (fs : FileSystem) (name : String)
    (deleteParams : Option JsObj) : Outcome :=
  let deleteParams : JsObj := deleteParams.getD []
  match db.find fs name (some deleteParams) true with
  | .error e => { fs := fs, result := .error e }
  | .ok findResponse =>
    if !findResponse.status then
      { fs := fs
        result := .error (.error (findResponse.message.toText ++ "Occured while performing Delete")) }
    else
      match db.find fs name none false with
      | .error e => { fs := fs, result := .error e }
      | .ok dbResponse =>
        if !dbResponse.status then
          { fs := fs, result := .error (.error dbResponse.message.toText) }
        else
          match findResponse.message, dbResponse.message with
          | .docs filteredData, .docs dbData =>
            match submit fs (db.collectionPath name) (deleteLoop dbData filteredData) with
            | (fs', some submitError) =>
              { fs := fs'
                result := .ok (getResponse false
                  (.text ("Error while updating data" ++ "\n" ++ submitError))) }
            | (fs', none) => { fs := fs', result := .ok (getResponse true (.text "Removed")) }
          | _, _ => { fs := fs, result := .error .unmodelled }

/-! ## Specification-side notions -/

/-- The filter relation of the specification: the document has every key of the filter as
an own field, with a value strictly equal to the value the filter holds under that key. -/
def matchesFilter (filterParam : JsObj) (each : Doc) : Bool :=
  filterParam.all (fun p =>
    match getOwn each p.1 with
    | some value => strictEquals (.json value) (getValue filterParam p.1)
    | none => false)

/-- The `{[index]: each}` object that `find` builds for the document at position `index`. -/
def indexEntry (index : Nat) (each : Doc) : Doc := [(toString index, Json.obj each)]

/-- The matching documents of a collection paired with their positions, counted from
`start`. -/
def matchesWithIndex (filterParam : JsObj) (start : Nat) (data : List Doc) : List Doc :=
  ((data.enumFrom start).filter (fun p => matchesFilter filterParam p.2)).map
    (fun p => indexEntry p.1 p.2)

/-- The `_id` values of a collection, document by document (`none` where a document has
no `_id`). -/
def idsOf (data : List Doc) : List (Option Json) := data.map (fun d => getOwn d "_id")

/-- The effect of the inner loop of `update` on one object: every key of `$set`, in
enumeration order, assigned the value `$set` holds for it. -/
def applySet (setData : Option JsObj) (doc : JsObj) : JsObj :=
  match setData with
  | none => doc
  | some s => (ownKeys s).foldl (fun o k => assign o k (getValue s k)) doc

/-- The response of `update` and `validateUpdateSignature` to `_id` in a sub-object. -/
def idResponse : Response :=
  getResponse false (.text "Cannot update _id it is system generated value")

/-- The response of `update` to a request that fails validation. -/
def invalidSignatureResponse : Response :=
  getResponse false (.text
    "Invalid Update Data Object Signature. Please call updateSignature() to check the valid object signature")

/-- A value that `validateUpdateSignature` lets through: truthy, or `false`, or zero. -/
def acceptedValue (value : JsVal) : Bool := toBoolean value || isfalsyValue value

/-! ## Concrete scenarios -/

/-- The database handler of the test suite. -/
def testDB : Database := { path := "testDB" }

/-- A file system whose only file is `testDB/users.json`, holding `data`; writes succeed. -/
def usersFile (data : List Doc) : FileSystem :=
  { files := fun p => if p = "testDB/users.json" then some data else none
    writeError := fun _ => none }

/-- A file system without any file; writes succeed. -/
def noFile : FileSystem :=
  { files := fun _ => none
    writeError := fun _ => none }

/-- The document of the test suite as stored after `insert`, with identifier `u1`. -/
def yoDoc : Doc :=
  [("id", .num 1), ("name", .str "yo"), ("email", .str "its@d.com"), ("_id", .str "u1")]

/-- A second stored document, which no filter of the scenarios matches. -/
def otherDoc : Doc := [("id", .num 2), ("name", .str "zed"), ("_id", .str "u2")]

/-- The update request of the test suite:
`{$find: {name: "yo", email: "its@d.com"}, $set: {new: "update@d.com"}}`. -/
def yoUpdate : UpdateRequest :=
  [("$find", [("name", .json (.str "yo")), ("email", .json (.str "its@d.com"))]),
   ("$set", [("new", .json (.str "update@d.com"))])]

/-- A request with falsy data values: `{$find: {active: false}, $set: {count: 0}}`. -/
def falsyUpdate : UpdateRequest :=
  [("$find", [("active", .json (.bool false))]), ("$set", [("count", .json (.num 0))])]

/-- The file system after a successful `Deno.writeFile` of `content` to `path`. -/
def FileSystem.write (fs : FileSystem) (path : String) (content : List Doc) : FileSystem :=
  { fs with files := fun p => if p = path then some content else fs.files p }

/-- The request `{$find: {id: 1}, $set: {new: "v"}}`. -/
def idOneUpdate : UpdateRequest :=
  [("$find", [("id", .json (.num 1))]), ("$set", [("new", .json (.str "v"))])]

/-- The request `{$find: {id: 1}, $set: {hasOwnProperty: 1}}`. -/
def shadowingUpdate : UpdateRequest :=
  [("$find", [("id", .json (.num 1))]), ("$set", [("hasOwnProperty", .json (.num 1))])]

/-- A stored document with an own field named `hasOwnProperty`. -/
def shadowDoc : Doc := [("id", .num 1), ("hasOwnProperty", .num 1), ("_id", .str "u1")]

/-- The document of the test suite as handed to `insert`, without `_id`. -/
def yoInput : Doc := [("id", .num 1), ("name", .str "yo"), ("email", .str "its@d.com")]

/-- A sequence of `insert` calls on one collection, each with the identifier generated
for it, run one after the other. -/
def insertAll (db : Database) (name : String) : FileSystem → List (String × JsObj) → FileSystem
  | fs, [] => fs
  | fs, (uuid, data) :: rest => insertAll db name (db.insert fs uuid name data).fs rest

end JsonDb

/-! # Properties -/

namespace JsonDb

/-! ## Basic facts about keys and enumeration order -/

theorem toString_of_canonicalNat? {s : String} {n : Nat} (h : canonicalNat? s = some n) :
    toString n = s := by
  unfold canonicalNat? at h
  split at h
  · split at h
    · rename_i h'
      cases h
      exact h'
    · cases h
  · cases h

theorem toString_of_arrayIndex? {s : String} {n : Nat} (h : arrayIndex? s = some n) :
    toString n = s := by
  unfold arrayIndex? at h
  split at h
  · rename_i m hm
    split at h
    · cases h
      exact toString_of_canonicalNat? hm
    · cases h
  · cases h

theorem mem_ownKeys {α : Type} (fields : List (String × α)) (k : String) :
    k ∈ ownKeys fields ↔ k ∈ fields.map Prod.fst := by
  unfold ownKeys
  simp only [List.mem_append, List.mem_map, List.mem_insertionSort, List.mem_filterMap,
    List.mem_filter]
  constructor
  · rintro (⟨n, ⟨p, hp, hn⟩, hk⟩ | ⟨p, ⟨hp, _⟩, hk⟩)
    · exact ⟨p, hp, by rw [← hk, toString_of_arrayIndex? hn]⟩
    · exact ⟨p, hp, hk⟩
  · rintro ⟨p, hp, hk⟩
    cases hidx : arrayIndex? p.1 with
    | none => exact Or.inr ⟨p, ⟨hp, by simp [hidx]⟩, hk⟩
    | some n => exact Or.inl ⟨n, ⟨p, hp, hidx⟩, by rw [toString_of_arrayIndex? hidx, hk]⟩

theorem length_ownKeys {α : Type} (fields : List (String × α)) :
    (ownKeys fields).length = fields.length := by
  unfold ownKeys
  simp only [List.length_append, List.length_map, List.length_insertionSort]
  induction fields with
  | nil => rfl
  | cons p rest ih =>
    cases hidx : arrayIndex? p.1 with
    | none =>
      simp only [List.filterMap_cons, hidx, List.filter_cons, Option.isNone_none, if_true,
        List.length_cons]
      omega
    | some n =>
      simp only [List.filterMap_cons, hidx, List.filter_cons, Option.isNone_some,
        List.length_cons]
      simp only [Bool.false_eq_true, if_false]
      omega

theorem ownKeys_singleton {α : Type} (k : String) (v : α) : ownKeys [(k, v)] = [k] := by
  unfold ownKeys
  cases hidx : arrayIndex? k with
  | none => simp [hidx]
  | some n => simp [hidx, toString_of_arrayIndex? hidx]

theorem ownKeys_eq_nil {α : Type} (fields : List (String × α)) :
    ownKeys fields = [] ↔ fields = [] := by
  rw [← List.length_eq_zero, length_ownKeys, List.length_eq_zero]

/-! ## Decimal strings -/

theorem digitChar_isDigit (k : Nat) (h : k < 10) :
    (Nat.digitChar k).isDigit = true ∧ (Nat.digitChar k).toNat - 48 = k := by
  interval_cases k <;> decide

theorem digitsValue_toDigitsCore (fuel : Nat) :
    ∀ (n : Nat) (ds : List Char), n < fuel →
      digitsValue 0 (Nat.toDigitsCore 10 fuel n ds) = digitsValue n ds := by
  induction fuel with
  | zero => intro n ds h; omega
  | succ fuel ih =>
    intro n ds h
    have hd := digitChar_isDigit (n % 10) (Nat.mod_lt _ (by decide))
    simp only [Nat.toDigitsCore]
    split
    · simp only [digitsValue, hd.1, if_true, hd.2]
      congr 1
      omega
    · rw [ih (n / 10) _ (by omega)]
      simp only [digitsValue, hd.1, if_true, hd.2]
      congr 1
      omega

theorem toDigits_ne_nil (n : Nat) : Nat.toDigits 10 n ≠ [] := by
  unfold Nat.toDigits
  simp only [Nat.toDigitsCore]
  split
  · simp
  · intro h
    have := Nat.toDigitsCore_lens_eq 10 n (n / 10) (Nat.digitChar (n % 10)) []
    rw [h] at this
    simp at this

theorem decimalNat?_toString (n : Nat) : decimalNat? (toString n) = some n := by
  have h1 : (toString n).data = Nat.toDigits 10 n := rfl
  unfold decimalNat?
  rw [h1]
  have h2 := toDigits_ne_nil n
  have h3 : digitsValue 0 (Nat.toDigits 10 n) = some n := by
    unfold Nat.toDigits
    rw [digitsValue_toDigitsCore _ _ _ (by omega)]
    rfl
  cases h : Nat.toDigits 10 n with
  | nil => exact absurd h h2
  | cons c cs => simp only []; rw [← h, h3]

theorem canonicalNat?_toString (n : Nat) : canonicalNat? (toString n) = some n := by
  unfold canonicalNat?
  rw [decimalNat?_toString]
  simp

theorem stringToIntegerOrInfinity_toString (n : Nat) :
    stringToIntegerOrInfinity (toString n) = .fin n := by
  unfold stringToIntegerOrInfinity
  rw [decimalNat?_toString]

/-! ## The filter of `find` -/

theorem all_ownKeys {α : Type} (fields : List (String × α)) (P : String → Bool) :
    (ownKeys fields).all P = fields.all (fun p => P p.1) := by
  rw [Bool.eq_iff_iff, List.all_eq_true, List.all_eq_true]
  constructor
  · intro h p hp
    exact h p.1 ((mem_ownKeys fields p.1).2 (List.mem_map_of_mem _ hp))
  · intro h k hk
    obtain ⟨p, hp, rfl⟩ := List.mem_map.1 ((mem_ownKeys fields k).1 hk)
    exact h p hp

theorem filterCallback_of_plain (filterParam : JsObj) (each : Doc)
    (hplain : hasOwn each "hasOwnProperty" = false) (keys : List String) :
    filterCallback filterParam each keys = .ok (keys.all (fun k =>
      match getOwn each k with
      | some value => strictEquals (.json value) (getValue filterParam k)
      | none => false)) := by
  induction keys with
  | nil => rfl
  | cons k rest ih =>
    simp only [filterCallback, hplain, Bool.false_eq_true, if_false, List.all_cons]
    cases getOwn each k with
    | none => simp
    | some value =>
      cases hs : strictEquals (.json value) (getValue filterParam k) with
      | false => simp [hs]
      | true => simp [hs, ih]

theorem filterCallback_of_shadowed (filterParam : JsObj) (each : Doc)
    (hshadow : hasOwn each "hasOwnProperty" = true) (k : String) (rest : List String) :
    filterCallback filterParam each (k :: rest) = .error .typeError := by
  simp [filterCallback, hshadow]

theorem filterCallback_eq_matchesFilter (filterParam : JsObj) (each : Doc)
    (hplain : hasOwn each "hasOwnProperty" = false) :
    filterCallback filterParam each (ownKeys filterParam) = .ok (matchesFilter filterParam each) := by
  rw [filterCallback_of_plain filterParam each hplain, all_ownKeys]
  rfl

theorem filterFrom_of_plain (filterParam : JsObj) (data : List Doc)
    (hplain : ∀ each ∈ data, hasOwn each "hasOwnProperty" = false) (index : Nat) :
    filterFrom filterParam index data
      = .ok (data.filter (matchesFilter filterParam), matchesWithIndex filterParam index data) := by
  induction data generalizing index with
  | nil => rfl
  | cons each rest ih =>
    have h1 := filterCallback_eq_matchesFilter filterParam each (hplain each (List.mem_cons_self _ _))
    have h2 := ih (fun d hd => hplain d (List.mem_cons_of_mem _ hd)) (index + 1)
    simp only [filterFrom, h1, h2]
    cases hm : matchesFilter filterParam each <;>
      simp [matchesWithIndex, List.enumFrom, hm, indexEntry]

/-- On a collection none of whose documents has an own field `hasOwnProperty`, `find` with a
non-empty filter returns the matching documents in stored order, or, with `getByIndex`,
their `{index: document}` objects. -/
theorem find_of_plain (db : Database) (fs : FileSystem) (name : String) (data : List Doc)
    (filterParam : JsObj) (getByIndex : Bool)
    (hfile : fs.files (db.collectionPath name) = some data)
    (hplain : ∀ each ∈ data, hasOwn each "hasOwnProperty" = false)
    (hne : filterParam ≠ []) :
    db.find fs name (some filterParam) getByIndex
      = .ok (getResponse true (.docs
          (if getByIndex then matchesWithIndex filterParam 0 data
           else data.filter (matchesFilter filterParam)))) := by
  have hempty : isEmpty (some filterParam) = false := by
    simp only [isEmpty, length_ownKeys]
    cases filterParam with
    | nil => exact absurd rfl hne
    | cons p rest => rfl
  simp only [Database.find, hfile, hempty, filterFrom_of_plain filterParam data hplain 0]
  simp

theorem find_of_missing_file (db : Database) (fs : FileSystem) (name : String)
    (filterParam : Option JsObj) (getByIndex : Bool)
    (hmissing : fs.files (db.collectionPath name) = none) :
    db.find fs name filterParam getByIndex
      = .ok (getResponse false
          (.text ("There is no " ++ name ++ " collection available, Try creating one first."))) := by
  simp [Database.find, hmissing]

/-- Without a filter `find` returns the whole decoded array. -/
theorem find_all (db : Database) (fs : FileSystem) (name : String) (data : List Doc)
    (hfile : fs.files (db.collectionPath name) = some data) :
    db.find fs name none false = .ok (getResponse true (.docs data)) := by
  simp [Database.find, hfile, isEmpty]

/-! ## Own-property lookup, assignment and JSON encoding -/

theorem getOwn_eq_none_iff {α : Type} (fields : List (String × α)) (key : String) :
    getOwn fields key = none ↔ key ∉ fields.map Prod.fst := by
  induction fields with
  | nil => simp [getOwn]
  | cons p rest ih =>
    obtain ⟨k, v⟩ := p
    by_cases h : k = key
    · simp [getOwn, h]
    · simp only [getOwn, h, if_false, ih, List.map_cons, List.mem_cons, not_or]
      constructor
      · intro h'
        exact ⟨fun e => h e.symm, h'⟩
      · intro h'
        exact h'.2

theorem mem_keys_of_getOwn {α : Type} {fields : List (String × α)} {key : String} {v : α}
    (h : getOwn fields key = some v) : key ∈ fields.map Prod.fst := by
  by_contra hc
  rw [(getOwn_eq_none_iff fields key).2 hc] at h
  cases h

theorem getValue_of_getOwn {object : JsObj} {key : String} {v : JsVal}
    (h : getOwn object key = some v) : getValue object key = v := by
  simp [getValue, h]

theorem stringifyObject_toObject (d : Doc) : stringifyObject d.toObject = d := by
  induction d with
  | nil => rfl
  | cons p rest ih =>
    have hcons : stringifyObject (Doc.toObject (p :: rest))
        = p :: stringifyObject (Doc.toObject rest) := by
      simp [Doc.toObject, stringifyObject, JsVal.toJson?]
    rw [hcons, ih]

theorem stringify_map_toObject (data : List Doc) : stringify (data.map Doc.toObject) = data := by
  induction data with
  | nil => rfl
  | cons d rest ih =>
    simp only [stringify, List.map_cons, stringifyObject_toObject] at ih ⊢
    rw [ih]

theorem getOwn_stringify_assign_same (o : JsObj) (k : String) (v : JsVal) (j : Json)
    (hv : v.toJson? = some j) : getOwn (stringifyObject (assign o k v)) k = some j := by
  induction o with
  | nil => simp [assign, stringifyObject, hv, getOwn]
  | cons p rest ih =>
    obtain ⟨k', v'⟩ := p
    by_cases h : k' = k
    · subst h
      simp [assign, stringifyObject, hv, getOwn]
    · simp only [assign, h, if_false, stringifyObject, List.filterMap_cons]
      simp only [stringifyObject] at ih
      cases hv' : v'.toJson? with
      | none => simpa using ih
      | some j' => simpa [getOwn, h] using ih

theorem getOwn_stringify_assign_other (o : JsObj) (k key : String) (v : JsVal)
    (hne : key ≠ k) :
    getOwn (stringifyObject (assign o k v)) key = getOwn (stringifyObject o) key := by
  induction o with
  | nil =>
    cases hv : v.toJson? with
    | none => simp [assign, stringifyObject, hv]
    | some j => simp [assign, stringifyObject, hv, getOwn, Ne.symm hne]
  | cons p rest ih =>
    obtain ⟨k', v'⟩ := p
    by_cases h : k' = k
    · subst h
      simp only [assign, if_true, stringifyObject, List.filterMap_cons]
      cases hv : v.toJson? <;> cases hv' : v'.toJson? <;> simp [getOwn, Ne.symm hne]
    · simp only [assign, h, if_false, stringifyObject, List.filterMap_cons]
      simp only [stringifyObject] at ih
      cases hv' : v'.toJson? with
      | none => simpa using ih
      | some j' =>
        by_cases hk : k' = key
        · simp [getOwn, hk]
        · simpa [getOwn, hk] using ih

theorem getOwn_stringify_foldl_assign (s : JsObj) (keys : List String)
    (hdef : ∀ k ∈ keys, (getValue s k).toJson?.isSome = true) (key : String) (o : JsObj) :
    getOwn (stringifyObject (keys.foldl (fun o k => assign o k (getValue s k)) o)) key
      = if key ∈ keys then (getValue s key).toJson? else getOwn (stringifyObject o) key := by
  induction keys generalizing o with
  | nil => simp
  | cons k rest ih =>
    rw [List.foldl_cons, ih (fun k' hk' => hdef k' (List.mem_cons_of_mem _ hk'))]
    by_cases hrest : key ∈ rest
    · simp [hrest]
    · by_cases hk : key = k
      · subst hk
        obtain ⟨j, hj⟩ := Option.isSome_iff_exists.1 (hdef key (List.mem_cons_self _ _))
        simp [hrest, getOwn_stringify_assign_same o key _ j hj, hj]
      · simp [hrest, hk, getOwn_stringify_assign_other o k key _ hk]

/-! ## The loops of update -/

theorem length_modifyAt {α : Type} (f : α → α) (i : Nat) (xs : List α) :
    (modifyAt f i xs).length = xs.length := by
  induction xs generalizing i with
  | nil => cases i <;> rfl
  | cons x rest ih =>
    cases i with
    | zero => rfl
    | succ i => simp [modifyAt, ih]

theorem modifyAt_modifyAt {α : Type} (f g : α → α) (i : Nat) (xs : List α) :
    modifyAt g i (modifyAt f i xs) = modifyAt (fun x => g (f x)) i xs := by
  induction xs generalizing i with
  | nil => cases i <;> rfl
  | cons x rest ih =>
    cases i with
    | zero => rfl
    | succ i => simp [modifyAt, ih]

theorem modifyAt_append_cons {α : Type} (f : α → α) (pre : List α) (x : α) (rest : List α) :
    modifyAt f pre.length (pre ++ x :: rest) = pre ++ f x :: rest := by
  induction pre with
  | nil => rfl
  | cons p pre ih => simp [modifyAt, ih]

theorem arrayProperty_toString (len i : Nat) (h : i < len) :
    arrayProperty len (toString i) = .element i := by
  simp [arrayProperty, canonicalNat?_toString, h]

theorem setLoop_element (s : JsObj) (i : Nat) (keys : List String) (dbData : List JsObj)
    (h : i < dbData.length) :
    setLoop s (toString i) dbData keys
      = .ok (modifyAt (fun doc => keys.foldl (fun o k => assign o k (getValue s k)) doc) i
          dbData) := by
  induction keys generalizing dbData with
  | nil =>
    simp only [setLoop, List.foldl_nil]
    congr 1
    clear h
    induction dbData generalizing i with
    | nil => cases i <;> rfl
    | cons x rest ih =>
      cases i with
      | zero => rfl
      | succ i => simp only [modifyAt]; rw [← ih]
  | cons k rest ih =>
    simp only [setLoop, arrayProperty_toString _ _ h]
    rw [ih _ (by rw [length_modifyAt]; exact h), modifyAt_modifyAt]
    rfl

theorem matchesWithIndex_cons (filterParam : JsObj) (start : Nat) (each : Doc)
    (rest : List Doc) :
    matchesWithIndex filterParam start (each :: rest)
      = if matchesFilter filterParam each then
          indexEntry start each :: matchesWithIndex filterParam (start + 1) rest
        else matchesWithIndex filterParam (start + 1) rest := by
  cases hm : matchesFilter filterParam each <;> simp [matchesWithIndex, List.enumFrom, hm]

theorem updateLoop_matches (setData : Option JsObj) (filterParam : JsObj) (data : List Doc)
    (pre : List JsObj) :
    updateLoop setData (pre ++ data.map Doc.toObject)
        (matchesWithIndex filterParam pre.length data)
      = .ok (pre ++ data.map (fun d =>
          if matchesFilter filterParam d then applySet setData d.toObject else d.toObject)) := by
  induction data generalizing pre with
  | nil => simp [matchesWithIndex, updateLoop]
  | cons each rest ih =>
    rw [matchesWithIndex_cons]
    cases hm : matchesFilter filterParam each with
    | false =>
      have := ih (pre ++ [each.toObject])
      simp only [List.length_append, List.length_singleton, List.append_assoc,
        List.singleton_append] at this
      simp only [Bool.false_eq_true, if_false, List.map_cons, hm]
      exact this
    | true =>
      have := ih (pre ++ [applySet setData each.toObject])
      simp only [List.length_append, List.length_singleton, List.append_assoc,
        List.singleton_append] at this
      cases setData with
      | none =>
        simp only [if_true, List.map_cons, updateLoop, indexEntry, ownKeys_singleton,
          List.head?_cons, propertyKey, hm]
        simpa [applySet] using this
      | some s =>
        simp only [if_true, List.map_cons, updateLoop, indexEntry, ownKeys_singleton,
          List.head?_cons, propertyKey, hm]
        rw [setLoop_element s pre.length (ownKeys s) _ (by simp), modifyAt_append_cons]
        simpa [applySet] using this

/-! ## The validator -/

theorem validateObject_eq_none {o : JsObj} {keys : List String}
    (h : validateObject o keys = none) :
    ∀ k ∈ keys, k ≠ "_id" ∧ acceptedValue (getValue o k) = true := by
  induction keys with
  | nil => intro k hk; cases hk
  | cons k rest ih =>
    simp only [validateObject] at h
    split at h
    · cases h
    · rename_i hid
      split at h
      · cases h
      · rename_i hacc
        intro k' hk'
        rcases List.mem_cons.1 hk' with rfl | hk'
        · refine ⟨hid, ?_⟩
          simp only [acceptedValue]
          cases h1 : toBoolean (getValue o k') <;> cases h2 : isfalsyValue (getValue o k') <;>
            simp_all
        · exact ih h k' hk'

theorem validateEntries_eq_true {es : List (String × JsObj)}
    (h : validateEntries es = .bool true) :
    ∀ p ∈ es, validateObject p.2 (ownKeys p.2) = none := by
  induction es with
  | nil => intro p hp; cases hp
  | cons e rest ih =>
    obtain ⟨k, o⟩ := e
    simp only [validateEntries] at h
    cases ho : validateObject o (ownKeys o) with
    | none =>
      rw [ho] at h
      intro p hp
      rcases List.mem_cons.1 hp with rfl | hp
      · exact ho
      · exact ih h p hp
    | some r =>
      rw [ho] at h
      simp only at h
      subst h
      exfalso
      clear ih
      generalize ownKeys o = keys at ho
      induction keys with
      | nil => cases ho
      | cons k' rest' ih' =>
        simp only [validateObject] at ho
        split at ho
        · cases ho
        · split at ho
          · cases ho
          · exact ih' ho

theorem mem_entries_of_getOwn {α : Type} {fields : List (String × α)} {key : String} {v : α}
    (h : getOwn fields key = some v) : (key, v) ∈ entries fields := by
  unfold entries
  rw [List.mem_filterMap]
  exact ⟨key, (mem_ownKeys fields key).2 (mem_keys_of_getOwn h), by simp [h]⟩

theorem validate_true_object (updateData : UpdateRequest) (key : String) (o : JsObj)
    (hvalid : validateUpdateSignature updateData = .bool true)
    (hobj : getOwn updateData key = some o) :
    ∀ k ∈ ownKeys o, k ≠ "_id" ∧ acceptedValue (getValue o k) = true := by
  unfold validateUpdateSignature at hvalid
  split at hvalid
  · cases hvalid
  · exact validateObject_eq_none (validateEntries_eq_true hvalid (key, o) (mem_entries_of_getOwn hobj))

theorem toJson?_isSome_of_accepted (v : JsVal) (h : acceptedValue v = true) :
    v.toJson?.isSome = true := by
  cases v with
  | undefined => simp [acceptedValue, toBoolean, isfalsyValue, strictEquals] at h
  | nan => rfl
  | inf n => rfl
  | json j => rfl

theorem validateObject_cases (o : JsObj) (keys : List String) :
    validateObject o keys = none ∨ validateObject o keys = some (.response idResponse)
      ∨ validateObject o keys = some (.bool false) := by
  induction keys with
  | nil => exact Or.inl rfl
  | cons k rest ih =>
    simp only [validateObject]
    split
    · exact Or.inr (Or.inl rfl)
    · split
      · exact Or.inr (Or.inr rfl)
      · exact ih

theorem validateObject_ne_none_of_id (o : JsObj) (keys : List String) (hid : "_id" ∈ keys) :
    validateObject o keys ≠ none := by
  induction keys with
  | nil => cases hid
  | cons k rest ih =>
    simp only [validateObject]
    split
    · simp
    · rename_i hk
      split
      · simp
      · rcases List.mem_cons.1 hid with h | h
        · exact absurd h.symm hk
        · exact ih h

theorem validateObject_ne_false_of_accepted (o : JsObj) (keys : List String)
    (hacc : ∀ k ∈ keys, acceptedValue (getValue o k) = true) :
    validateObject o keys ≠ some (.bool false) := by
  induction keys with
  | nil => simp [validateObject]
  | cons k rest ih =>
    simp only [validateObject]
    split
    · simp
    · split
      · rename_i hbad
        have := hacc k (List.mem_cons_self _ _)
        simp only [acceptedValue] at this
        cases h1 : toBoolean (getValue o k) <;> cases h2 : isfalsyValue (getValue o k) <;>
          simp_all
      · exact ih (fun k' hk' => hacc k' (List.mem_cons_of_mem _ hk'))

theorem validateEntries_cases (es : List (String × JsObj)) :
    validateEntries es = .bool true ∨ validateEntries es = .response idResponse
      ∨ validateEntries es = .bool false := by
  induction es with
  | nil => exact Or.inl rfl
  | cons e rest ih =>
    obtain ⟨k, o⟩ := e
    simp only [validateEntries]
    rcases validateObject_cases o (ownKeys o) with h | h | h <;> rw [h]
    · exact ih
    · exact Or.inr (Or.inl rfl)
    · exact Or.inr (Or.inr rfl)

theorem validateEntries_ne_true_of_id (es : List (String × JsObj))
    (hid : ∃ p ∈ es, "_id" ∈ ownKeys p.2) : validateEntries es ≠ .bool true := by
  intro h
  obtain ⟨p, hp, hmem⟩ := hid
  exact validateObject_ne_none_of_id p.2 _ hmem (validateEntries_eq_true h p hp)

theorem validateEntries_ne_false_of_accepted (es : List (String × JsObj))
    (hacc : ∀ p ∈ es, ∀ k ∈ ownKeys p.2, acceptedValue (getValue p.2 k) = true) :
    validateEntries es ≠ .bool false := by
  induction es with
  | nil => simp [validateEntries]
  | cons e rest ih =>
    obtain ⟨k, o⟩ := e
    simp only [validateEntries]
    have hne := validateObject_ne_false_of_accepted o (ownKeys o)
      (hacc (k, o) (List.mem_cons_self _ _))
    rcases validateObject_cases o (ownKeys o) with h | h | h
    · rw [h]
      exact ih (fun p hp => hacc p (List.mem_cons_of_mem _ hp))
    · rw [h]
      simp [idResponse, getResponse]
    · exact absurd h hne

theorem mem_of_getOwn {α : Type} {fields : List (String × α)} {k : String} {v : α}
    (hg : getOwn fields k = some v) : (k, v) ∈ fields := by
  induction fields with
  | nil => cases hg
  | cons q rest ih =>
    obtain ⟨k', v'⟩ := q
    by_cases hk' : k' = k
    · simp only [getOwn, hk', if_true, Option.some.injEq] at hg
      subst hk' hg
      exact List.mem_cons_self _ _
    · simp only [getOwn, hk', if_false] at hg
      exact List.mem_cons_of_mem _ (ih hg)

theorem mem_of_mem_entries {α : Type} {fields : List (String × α)} {p : String × α}
    (h : p ∈ entries fields) : p ∈ fields := by
  unfold entries at h
  obtain ⟨k, _, hk⟩ := List.mem_filterMap.1 h
  cases hg : getOwn fields k with
  | none => simp [hg] at hk
  | some v =>
    simp only [hg, Option.map_some', Option.some.injEq] at hk
    subst hk
    exact mem_of_getOwn hg

theorem getValue_accepted_of_all (o : JsObj) (hacc : ∀ q ∈ o, acceptedValue q.2 = true)
    (k : String) (hk : k ∈ ownKeys o) : acceptedValue (getValue o k) = true := by
  have hmem := (mem_ownKeys o k).1 hk
  cases hg : getOwn o k with
  | none => exact absurd hmem ((getOwn_eq_none_iff o k).1 hg)
  | some v =>
    rw [getValue_of_getOwn hg]
    exact hacc (k, v) (mem_of_getOwn hg)

/-! ## update on the matching documents -/

theorem getOwn_stringify_applySet (s : JsObj) (d : Doc)
    (hacc : ∀ k ∈ ownKeys s, acceptedValue (getValue s k) = true) (key : String) :
    getOwn (stringifyObject (applySet (some s) d.toObject)) key
      = match getOwn s key with
        | some value => value.toJson?
        | none => getOwn d key := by
  simp only [applySet]
  rw [getOwn_stringify_foldl_assign s (ownKeys s)
    (fun k hk => toJson?_isSome_of_accepted _ (hacc k hk)), stringifyObject_toObject]
  cases hk : getOwn s key with
  | none =>
    have : key ∉ ownKeys s := by
      rw [mem_ownKeys]
      exact (getOwn_eq_none_iff s key).1 hk
    simp [this]
  | some v =>
    have : key ∈ ownKeys s := (mem_ownKeys s key).2 (mem_keys_of_getOwn hk)
    simp [this, getValue_of_getOwn hk]

theorem update_of_plain (db : Database) (fs : FileSystem) (name : String) (data : List Doc)
    (updateData : UpdateRequest) (filterParam : JsObj)
    (hfile : fs.files (db.collectionPath name) = some data)
    (hplain : ∀ each ∈ data, hasOwn each "hasOwnProperty" = false)
    (hvalid : validateUpdateSignature updateData = .bool true)
    (hfind : getOwn updateData "$find" = some filterParam) (hne : filterParam ≠ []) :
    db.update fs name updateData
      = match submit fs (db.collectionPath name)
          (data.map (fun d =>
            if matchesFilter filterParam d then
              stringifyObject (applySet (getOwn updateData "$set") d.toObject)
            else d)) with
        | (fs', some submitError) =>
          { fs := fs'
            result := .ok (getResponse false
              (.text ("Error while updating data" ++ "\n" ++ submitError))) }
        | (fs', none) => { fs := fs', result := .ok (getResponse true (.text "Data Updated")) } := by
  have hloop := updateLoop_matches (getOwn updateData "$set") filterParam data []
  simp only [List.nil_append, List.length_nil] at hloop
  have hstr : stringify (data.map (fun d =>
      if matchesFilter filterParam d then applySet (getOwn updateData "$set") d.toObject
      else d.toObject))
      = data.map (fun d =>
          if matchesFilter filterParam d then
            stringifyObject (applySet (getOwn updateData "$set") d.toObject)
          else d) := by
    simp only [stringify, List.map_map]
    apply List.map_congr_left
    intro d _
    simp only [Function.comp]
    split
    · rfl
    · exact stringifyObject_toObject d
  simp only [Database.update, hvalid, hfind,
    find_of_plain db fs name data filterParam true hfile hplain hne,
    find_all db fs name data hfile, getResponse, if_true, Bool.not_true, Bool.false_eq_true,
    if_false, hloop, hstr]

/-! ## insert -/

theorem assign_of_absent {α : Type} (o : List (String × α)) (k : String) (v : α)
    (h : getOwn o k = none) : assign o k v = o ++ [(k, v)] := by
  induction o with
  | nil => rfl
  | cons p rest ih =>
    obtain ⟨k', v'⟩ := p
    by_cases hk : k' = k
    · simp [getOwn, hk] at h
    · simp only [getOwn, hk, if_false] at h
      simp [assign, hk, ih h]

theorem getOwn_toObject (d : Doc) (key : String) :
    getOwn d.toObject key = (getOwn d key).map JsVal.json := by
  induction d with
  | nil => rfl
  | cons p rest ih =>
    obtain ⟨k, v⟩ := p
    by_cases hk : k = key
    · simp [Doc.toObject, getOwn, hk]
    · simp only [Doc.toObject, List.map_cons, getOwn, hk, if_false]
      exact ih

theorem stringifyObject_append (o o' : JsObj) :
    stringifyObject (o ++ o') = stringifyObject o ++ stringifyObject o' := by
  simp [stringifyObject, List.filterMap_append]

theorem stringify_append (xs ys : List JsObj) :
    stringify (xs ++ ys) = stringify xs ++ stringify ys := by
  simp [stringify]

/-- Normal form of `insert` when `data._id` is falsy: the stored array gains, as its last
element, the JSON encoding of `data` with `_id` set to the generated identifier. -/
theorem insert_of_falsy_id (db : Database) (fs : FileSystem) (uuid name : String)
    (data : JsObj) (hfalsy : toBoolean (getValue data "_id") = false) :
    db.insert fs uuid name data
      = match submit fs (db.collectionPath name)
          ((fs.files (db.collectionPath name)).getD []
            ++ [stringifyObject (assign data "_id" (.json (.str uuid)))]) with
        | (fs', some _) =>
          { fs := fs', result := .ok (getResponse false (.text "Error inserting data")) }
        | (fs', none) =>
          { fs := fs', result := .ok (getResponse true (.text "Data inserted")) } := by
  cases hfile : fs.files (db.collectionPath name) with
  | none =>
    simp [Database.insert, hfalsy, Database.find, hfile, getResponse, stringify]
  | some stored =>
    have hstr : stringify (stored.map Doc.toObject ++ [assign data "_id" (.json (.str uuid))])
        = stored ++ [stringifyObject (assign data "_id" (.json (.str uuid)))] := by
      rw [stringify_append, stringify_map_toObject]
      rfl
    simp only [Database.insert, hfalsy, find_all db fs name stored hfile, getResponse, hstr,
      Option.getD_some, if_true, Bool.false_eq_true, if_false]

/-! ## Identifiers under the three mutations -/

theorem map_modifyAt_of_invariant {α β : Type} (g : α → β) (f : α → α)
    (hf : ∀ x, g (f x) = g x) (i : Nat) (xs : List α) : (modifyAt f i xs).map g = xs.map g := by
  induction xs generalizing i with
  | nil => cases i <;> rfl
  | cons x rest ih =>
    cases i with
    | zero => simp [modifyAt, hf]
    | succ i => simp [modifyAt, ih]

theorem idsOf_stringify (xs : List JsObj) :
    idsOf (stringify xs) = xs.map (fun o => getOwn (stringifyObject o) "_id") := by
  simp [idsOf, stringify, List.map_map, Function.comp]

theorem setLoop_preserves_ids (s : JsObj) (index : String) (keys : List String)
    (hkeys : ∀ k ∈ keys, k ≠ "_id") (dbData dbData' : List JsObj)
    (h : setLoop s index dbData keys = .ok dbData') :
    idsOf (stringify dbData') = idsOf (stringify dbData) := by
  induction keys generalizing dbData with
  | nil =>
    simp only [setLoop, Except.ok.injEq] at h
    rw [h]
  | cons k rest ih =>
    simp only [setLoop] at h
    split at h
    · rename_i i _
      rw [ih (fun k' hk' => hkeys k' (List.mem_cons_of_mem _ hk')) _ h, idsOf_stringify,
        idsOf_stringify]
      exact map_modifyAt_of_invariant _ _
        (fun o => getOwn_stringify_assign_other o k "_id" _
          (Ne.symm (hkeys k (List.mem_cons_self _ _)))) i dbData
    · cases h
    · cases h
    · cases h

theorem updateLoop_preserves_ids (setData : Option JsObj)
    (hset : ∀ s, setData = some s → ∀ k ∈ ownKeys s, k ≠ "_id")
    (filteredData : List Doc) (dbData dbData' : List JsObj)
    (h : updateLoop setData dbData filteredData = .ok dbData') :
    idsOf (stringify dbData') = idsOf (stringify dbData) := by
  induction filteredData generalizing dbData with
  | nil =>
    simp only [updateLoop, Except.ok.injEq] at h
    rw [h]
  | cons dataAndIndex rest ih =>
    simp only [updateLoop] at h
    cases setData with
    | none =>
      simp only at h
      exact ih dbData h
    | some s =>
      simp only at h
      cases hloop : setLoop s (propertyKey (ownKeys dataAndIndex).head?) dbData (ownKeys s) with
      | error e => rw [hloop] at h; cases h
      | ok mid =>
        rw [hloop] at h
        rw [ih mid h]
        exact setLoop_preserves_ids s _ _ (hset s rfl) dbData mid hloop

theorem validateUpdateSignature_cases (updateData : UpdateRequest) :
    validateUpdateSignature updateData = .bool true
      ∨ validateUpdateSignature updateData = .response idResponse
      ∨ validateUpdateSignature updateData = .bool false := by
  unfold validateUpdateSignature
  split
  · exact Or.inr (Or.inr rfl)
  · exact validateEntries_cases _

theorem find_cases_of_file (db : Database) (fs : FileSystem) (name : String) (data : List Doc)
    (filterParam : Option JsObj) (getByIndex : Bool)
    (hfile : fs.files (db.collectionPath name) = some data) :
    (∃ e, db.find fs name filterParam getByIndex = .error e)
      ∨ ∃ found, db.find fs name filterParam getByIndex
          = .ok (getResponse true (.docs found)) := by
  simp only [Database.find, hfile]
  split
  · rename_i e _
    exact Or.inl ⟨e, rfl⟩
  · exact Or.inr ⟨_, rfl⟩

theorem splice1_sublist {α : Type} (xs : List α) (start : IntegerOrInfinity) :
    List.Sublist (splice1 xs start) xs := by
  unfold splice1
  exact List.eraseIdx_sublist _ _

theorem deleteLoop_sublist (filteredData : List Doc) (dbData : List Doc) :
    List.Sublist (deleteLoop dbData filteredData) dbData := by
  induction filteredData generalizing dbData with
  | nil => exact List.Sublist.refl _
  | cons dataAndIndex rest ih =>
    simp only [deleteLoop]
    exact (ih _).trans (splice1_sublist _ _)

/-- A successful `update` writes a collection with the same `_id`, position by position. -/
theorem update_success_ids (db : Database) (fs : FileSystem) (name : String)
    (data : List Doc) (hfile : fs.files (db.collectionPath name) = some data)
    (updateData : UpdateRequest) (r : Response)
    (hres : (db.update fs name updateData).result = .ok r) (hok : r.status = true) :
    ∃ data', (db.update fs name updateData).fs.files (db.collectionPath name) = some data'
      ∧ idsOf data' = idsOf data := by
  rcases validateUpdateSignature_cases updateData with hv | hv | hv
  · have hset : ∀ s, getOwn updateData "$set" = some s → ∀ k ∈ ownKeys s, k ≠ "_id" :=
      fun s hs k hk => (validate_true_object updateData "$set" s hv hs k hk).1
    rcases find_cases_of_file db fs name data (getOwn updateData "$find") true hfile with
      ⟨e, hf⟩ | ⟨found, hf⟩
    · simp [Database.update, hv, hf] at hres
    · simp only [Database.update, hv, hf, find_all db fs name data hfile, getResponse,
        Bool.not_true, Bool.false_eq_true, if_false] at hres ⊢
      cases hloop : updateLoop (getOwn updateData "$set") (data.map Doc.toObject) found with
      | error e => simp [hloop] at hres
      | ok dbData' =>
        have hids := updateLoop_preserves_ids _ hset found _ _ hloop
        rw [stringify_map_toObject] at hids
        simp only [hloop, submit] at hres ⊢
        cases hw : fs.writeError (db.collectionPath name) with
        | some e =>
          simp only [hw, Except.ok.injEq] at hres
          rw [← hres] at hok
          cases hok
        | none =>
          exact ⟨stringify dbData', by simp, hids⟩
  · simp only [Database.update, hv, Except.ok.injEq] at hres
    rw [← hres] at hok
    cases hok
  · simp only [Database.update, hv, Except.ok.injEq] at hres
    rw [← hres] at hok
    cases hok

/-- A successful `delete` writes a sublist of the stored collection. -/
theorem delete_success_sublist (db : Database) (fs : FileSystem) (name : String)
    (data : List Doc) (hfile : fs.files (db.collectionPath name) = some data)
    (deleteParams : Option JsObj) (r : Response)
    (hres : (db.delete fs name deleteParams).result = .ok r) (hok : r.status = true) :
    ∃ data', (db.delete fs name deleteParams).fs.files (db.collectionPath name) = some data'
      ∧ List.Sublist data' data := by
  rcases find_cases_of_file db fs name data (some (deleteParams.getD [])) true hfile with
    ⟨e, hf⟩ | ⟨found, hf⟩
  · simp [Database.delete, hf] at hres
  · simp only [Database.delete, hf, find_all db fs name data hfile, getResponse,
      Bool.not_true, Bool.false_eq_true, if_false, submit] at hres ⊢
    cases hw : fs.writeError (db.collectionPath name) with
    | some e =>
      simp only [hw, Except.ok.injEq] at hres
      rw [← hres] at hok
      cases hok
    | none =>
      exact ⟨deleteLoop data found, by simp, deleteLoop_sublist found data⟩

/-- A successful `insert` appends one document whose `_id` is the generated identifier. -/
theorem insert_success_ids (db : Database) (fs : FileSystem) (name : String)
    (data : List Doc) (hfile : fs.files (db.collectionPath name) = some data)
    (uuid : String) (doc : JsObj) (r : Response)
    (hres : (db.insert fs uuid name doc).result = .ok r) (hok : r.status = true) :
    ∃ data', (db.insert fs uuid name doc).fs.files (db.collectionPath name) = some data'
      ∧ idsOf data' = idsOf data ++ [some (.str uuid)] := by
  cases hfalsy : toBoolean (getValue doc "_id") with
  | true =>
    simp only [Database.insert, hfalsy, if_true, Except.ok.injEq] at hres
    rw [← hres] at hok
    cases hok
  | false =>
    rw [insert_of_falsy_id db fs uuid name doc hfalsy] at hres ⊢
    simp only [submit, hfile, Option.getD_some] at hres ⊢
    cases hw : fs.writeError (db.collectionPath name) with
    | some e =>
      simp only [hw, Except.ok.injEq] at hres
      rw [← hres] at hok
      cases hok
    | none =>
      refine ⟨data ++ [stringifyObject (assign doc "_id" (.json (.str uuid)))], by simp, ?_⟩
      simp [idsOf,
        getOwn_stringify_assign_same doc "_id" (.json (.str uuid)) (.str uuid) rfl]

/-! ## Claims about find and delete -/

/-- C1 (failing input).  The collection holds one document
`{"id": 1, "hasOwnProperty": 1, "_id": "u1"}` and the filter is `{id: 1}`, which the
document satisfies; `find` raises a `TypeError` instead of returning the document. -/
theorem find_throws_on_hasOwnProperty_field :
    testDB.find
        (usersFile [[("id", .num 1), ("hasOwnProperty", .num 1), ("_id", .str "u1")]])
        "users" (some [("id", .json (.num 1))]) false
      = .error .typeError := by
  decide

/-- C2 (failing input).  The collection holds `{id:1,_id:"u1"}`, `{id:1,_id:"u2"}`,
`{id:2,_id:"u3"}` and the filter `{id: 1}` matches the first two; after `delete` the file
holds the matching document `u2` and the non-matching document `u3` is gone. -/
theorem delete_two_adjacent_matches_removes_wrong_document :
    (testDB.delete
        (usersFile [[("id", .num 1), ("_id", .str "u1")], [("id", .num 1), ("_id", .str "u2")],
          [("id", .num 2), ("_id", .str "u3")]])
        "users" (some [("id", .json (.num 1))])).result
      = .ok (getResponse true (.text "Removed"))
    ∧ (testDB.delete
        (usersFile [[("id", .num 1), ("_id", .str "u1")], [("id", .num 1), ("_id", .str "u2")],
          [("id", .num 2), ("_id", .str "u3")]])
        "users" (some [("id", .json (.num 1))])).fs.files "testDB/users.json"
      = some [[("id", .num 1), ("_id", .str "u2")]] := by
  decide

/-! ## Claims about update -/

/-- C3 (failing input).  The collection holds the one document
`{"id": 1, "hasOwnProperty": 1, "_id": "u1"}`; the request
`{$find: {id: 1}, $set: {new: "v"}}` passes validation and its non-empty `$find` matches the
document.  `update` raises a `TypeError`: it returns no response and the stored document
does not get the field `new`. -/
theorem update_throws_on_hasOwnProperty_field :
    validateUpdateSignature idOneUpdate = .bool true
    ∧ matchesFilter [("id", .json (.num 1))] shadowDoc = true
    ∧ (testDB.update (usersFile [shadowDoc]) "users" idOneUpdate).result = .error .typeError
    ∧ (testDB.update (usersFile [shadowDoc]) "users" idOneUpdate).fs.files "testDB/users.json"
      = some [shadowDoc] := by
  decide

/-- Let the collection hold `data`, none of whose documents has an own field named
`hasOwnProperty`, and let the request pass `validateUpdateSignature` and carry a non-empty
`$find`.  If the write succeeds, `update` returns `{status: true, message: 'Data Updated'}`
and the file then holds a list of the same length and order in which every document
matching `$find` has each key of `$set` equal to the JSON encoding of the `$set` value and
every other field as before, and every other document is unchanged; with no match the
content is unchanged. -/
theorem update_on_plain_collection (db : Database) (fs : FileSystem) (name : String)
    (data : List Doc) (updateData : UpdateRequest) (filterParam : JsObj)
    (hfile : fs.files (db.collectionPath name) = some data)
    (hplain : ∀ each ∈ data, hasOwn each "hasOwnProperty" = false)
    (hvalid : validateUpdateSignature updateData = .bool true)
    (hfind : getOwn updateData "$find" = some filterParam) (hne : filterParam ≠ [])
    (hwrite : fs.writeError (db.collectionPath name) = none) :
    (db.update fs name updateData).result = .ok (getResponse true (.text "Data Updated"))
    ∧ ∃ data', (db.update fs name updateData).fs.files (db.collectionPath name) = some data'
      ∧ List.Forall₂ (fun old new =>
          if matchesFilter filterParam old then
            ∀ key, getOwn new key
              = match (getOwn updateData "$set").bind (fun s => getOwn s key) with
                | some value => value.toJson?
                | none => getOwn old key
          else new = old) data data'
      ∧ ((∀ d ∈ data, matchesFilter filterParam d = false) → data' = data) := by
  rw [update_of_plain db fs name data updateData filterParam hfile hplain hvalid hfind hne]
  simp only [submit, hwrite, if_true, true_and]
  refine ⟨_, rfl, ?_, ?_⟩
  · rw [List.forall₂_map_right_iff, List.forall₂_same]
    intro d _
    cases hm : matchesFilter filterParam d with
    | false => simp
    | true =>
      simp only [if_true]
      intro key
      cases hset : getOwn updateData "$set" with
      | none => simp [applySet, stringifyObject_toObject]
      | some s =>
        rw [getOwn_stringify_applySet s d
          (fun k hk => (validate_true_object updateData "$set" s hvalid hset k hk).2)]
        rfl
  · intro hnone
    conv_rhs => rw [← List.map_id data]
    apply List.map_congr_left
    intro d hd
    simp [hnone d hd]

/-! ## Claims about insert -/

/-- C4.  For a document `d` without `_id`, when the write succeeds `insert` returns
`{status: true, message: 'Data inserted'}`; if the file held `stored` it then holds
`stored` followed by `d` with the generated `_id` as its last field, and if the file was
missing it is created holding that single document. -/
theorem insert_appends_document (db : Database) (fs : FileSystem) (uuid name : String)
    (d : Doc) (hid : getOwn d "_id" = none)
    (hwrite : fs.writeError (db.collectionPath name) = none) :
    (db.insert fs uuid name d.toObject).result = .ok (getResponse true (.text "Data inserted"))
    ∧ (∀ stored, fs.files (db.collectionPath name) = some stored →
        (db.insert fs uuid name d.toObject).fs.files (db.collectionPath name)
          = some (stored ++ [d ++ [("_id", .str uuid)]]))
    ∧ (fs.files (db.collectionPath name) = none →
        (db.insert fs uuid name d.toObject).fs.files (db.collectionPath name)
          = some [d ++ [("_id", .str uuid)]]) := by
  have hfalsy : toBoolean (getValue d.toObject "_id") = false := by
    simp [getValue, getOwn_toObject, hid, toBoolean]
  have hnew : stringifyObject (assign d.toObject "_id" (.json (.str uuid)))
      = d ++ [("_id", .str uuid)] := by
    rw [assign_of_absent _ _ _ (by rw [getOwn_toObject, hid]; rfl), stringifyObject_append,
      stringifyObject_toObject]
    rfl
  rw [insert_of_falsy_id db fs uuid name _ hfalsy, hnew]
  simp only [submit, hwrite]
  refine ⟨by simp, ?_, ?_⟩
  · intro stored hstored
    simp [hstored]
  · intro hnone
    simp [hnone]

/-- C4 (witness).  The insert of the test suite into a missing collection. -/
theorem insert_appends_document_witness :
    getOwn ([("id", .num 1), ("name", .str "yo"), ("email", .str "its@d.com")] : Doc) "_id" = none
    ∧ (testDB.insert noFile "u1" "users"
        (Doc.toObject [("id", .num 1), ("name", .str "yo"), ("email", .str "its@d.com")])).result
        = .ok (getResponse true (.text "Data inserted"))
    ∧ (testDB.insert noFile "u1" "users"
        (Doc.toObject [("id", .num 1), ("name", .str "yo"), ("email", .str "its@d.com")])).fs.files
        (testDB.collectionPath "users") = some [yoDoc] := by
  have h := insert_appends_document testDB noFile "u1" "users"
    [("id", .num 1), ("name", .str "yo"), ("email", .str "its@d.com")] (by decide) (by decide)
  exact ⟨by decide, h.1, h.2.2 (by decide)⟩

/-- C5 (failing input).  `insert('users', {_id: 0, a: 1})` on a collection holding one
document: the input carries `_id`, yet `insert` returns
`{status: true, message: 'Data inserted'}` and the file gains a document. -/
theorem insert_accepts_falsy_id :
    (testDB.insert (usersFile [yoDoc]) "u2" "users"
        [("_id", .json (.num 0)), ("a", .json (.num 1))]).result
      = .ok (getResponse true (.text "Data inserted"))
    ∧ (testDB.insert (usersFile [yoDoc]) "u2" "users"
        [("_id", .json (.num 0)), ("a", .json (.num 1))]).fs.files "testDB/users.json"
      = some [yoDoc, [("_id", .str "u2"), ("a", .num 1)]] := by
  decide

/-! ## Claims about missing collections and the signature -/

/-- C6.  When the collection file is missing, `find` returns the not-found response naming
the collection, whatever the filter and the `getByIndex` flag; `find` raises nothing and,
being a read, leaves the file system as it is. -/
theorem find_missing_collection (db : Database) (fs : FileSystem) (name : String)
    (filterParam : Option JsObj) (getByIndex : Bool)
    (hmissing : fs.files (db.collectionPath name) = none) :
    db.find fs name filterParam getByIndex
      = .ok (getResponse false
          (.text ("There is no " ++ name ++ " collection available, Try creating one first."))) := by
  simp [Database.find, hmissing]

/-- C6 (witness).  The first test of the suite: `find('users', {})` on a fresh database. -/
theorem find_missing_collection_witness :
    noFile.files (testDB.collectionPath "users") = none
    ∧ testDB.find noFile "users" (some []) false
      = .ok (getResponse false
          (.text ("There is no " ++ "users" ++ " collection available, Try creating one first."))) :=
  ⟨rfl, find_missing_collection testDB noFile "users" (some []) false rfl⟩

theorem all_validFilters_eq_false (updateData : UpdateRequest)
    (hkey : ∃ key ∈ updateData.map Prod.fst, key ≠ "$find" ∧ key ≠ "$set") :
    (ownKeys updateData).all (fun key => validFilters.contains key) = false := by
  obtain ⟨key, hmem, h1, h2⟩ := hkey
  rw [Bool.eq_false_iff]
  intro hall
  have := List.all_eq_true.1 hall key ((mem_ownKeys updateData key).2 hmem)
  simp [validFilters, h1, h2] at this

theorem all_validFilters_eq_true (updateData : UpdateRequest)
    (hkeys : ∀ key ∈ updateData.map Prod.fst, key = "$find" ∨ key = "$set") :
    (ownKeys updateData).all (fun key => validFilters.contains key) = true := by
  rw [List.all_eq_true]
  intro key hkey
  rcases hkeys key ((mem_ownKeys updateData key).1 hkey) with h | h <;> simp [validFilters, h]

/-- C7.  A request with a top-level key other than `$find` and `$set` fails validation;
`update` returns the invalid-signature response and leaves the file system as it was. -/
theorem update_rejects_unknown_top_level_key (db : Database) (fs : FileSystem)
    (name : String) (updateData : UpdateRequest)
    (hkey : ∃ key ∈ updateData.map Prod.fst, key ≠ "$find" ∧ key ≠ "$set") :
    validateUpdateSignature updateData = .bool false
    ∧ (db.update fs name updateData).result
        = .ok (getResponse false (.text
            "Invalid Update Data Object Signature. Please call updateSignature() to check the valid object signature"))
    ∧ (db.update fs name updateData).fs = fs := by
  have hv : validateUpdateSignature updateData = .bool false := by
    unfold validateUpdateSignature
    rw [all_validFilters_eq_false updateData hkey]
    rfl
  simp [Database.update, hv]

/-- C7 (witness).  The request `{foo: {}, $set: {}}` against a stored collection. -/
theorem update_rejects_unknown_top_level_key_witness :
    (∃ key ∈ ([("foo", []), ("$set", [])] : UpdateRequest).map Prod.fst,
        key ≠ "$find" ∧ key ≠ "$set")
    ∧ (testDB.update (usersFile [yoDoc]) "users" [("foo", []), ("$set", [])]).result
        = .ok invalidSignatureResponse
    ∧ (testDB.update (usersFile [yoDoc]) "users" [("foo", []), ("$set", [])]).fs
        = usersFile [yoDoc] :=
  ⟨⟨"foo", by decide, by decide, by decide⟩,
    (update_rejects_unknown_top_level_key testDB (usersFile [yoDoc]) "users"
      [("foo", []), ("$set", [])] ⟨"foo", by decide, by decide, by decide⟩).2⟩

/-- C8 (counterexample).  The request `{$find: {a: ""}, $set: {_id: "x"}}` has only the
recognised top-level keys and `_id` inside `$set`, but the empty string under `$find` is
met first: the validator returns `false` and `update` returns the invalid-signature
response, not the dedicated `_id` response. -/
theorem validate_id_in_set_after_rejected_value :
    validateUpdateSignature
        [("$find", [("a", .json (.str ""))]), ("$set", [("_id", .json (.str "x"))])]
      = .bool false
    ∧ (testDB.update (usersFile [yoDoc]) "users"
        [("$find", [("a", .json (.str ""))]), ("$set", [("_id", .json (.str "x"))])]).result
      = .ok invalidSignatureResponse := by
  decide

/-- C8 (amended).  A request whose top-level keys are within `$find`, `$set` and whose `$set`
contains the key `_id` is always rejected with the file system left as it was: either the
validator returns the dedicated `_id` response and `update` returns it, or the validator
returns `false` and `update` returns the invalid-signature response.  When every value of
every sub-object is truthy or is `false` or zero, it is the dedicated response. -/
theorem update_rejects_id_in_set (db : Database) (fs : FileSystem) (name : String)
    (updateData : UpdateRequest) (s : JsObj)
    (hkeys : ∀ key ∈ updateData.map Prod.fst, key = "$find" ∨ key = "$set")
    (hset : getOwn updateData "$set" = some s)
    (hid : "_id" ∈ s.map Prod.fst) :
    ((validateUpdateSignature updateData = .response idResponse
        ∧ (db.update fs name updateData).result = .ok idResponse)
      ∨ (validateUpdateSignature updateData = .bool false
        ∧ (db.update fs name updateData).result = .ok invalidSignatureResponse))
    ∧ (db.update fs name updateData).fs = fs
    ∧ ((∀ p ∈ updateData, ∀ q ∈ p.2, acceptedValue q.2 = true) →
        validateUpdateSignature updateData = .response idResponse
        ∧ (db.update fs name updateData).result = .ok idResponse) := by
  have hv : validateUpdateSignature updateData = validateEntries (entries updateData) := by
    unfold validateUpdateSignature
    rw [all_validFilters_eq_true updateData hkeys]
    rfl
  have hne : validateEntries (entries updateData) ≠ .bool true :=
    validateEntries_ne_true_of_id _
      ⟨("$set", s), mem_entries_of_getOwn hset, (mem_ownKeys s "_id").2 hid⟩
  have hresp : validateEntries (entries updateData) = .response idResponse →
      (db.update fs name updateData).result = .ok idResponse
        ∧ (db.update fs name updateData).fs = fs := by
    intro h
    simp [Database.update, hv, h]
  have hfalse : validateEntries (entries updateData) = .bool false →
      (db.update fs name updateData).result = .ok invalidSignatureResponse
        ∧ (db.update fs name updateData).fs = fs := by
    intro h
    simp [Database.update, hv, h, invalidSignatureResponse]
  rcases validateEntries_cases (entries updateData) with h | h | h
  · exact absurd h hne
  · refine ⟨Or.inl ⟨hv.trans h, (hresp h).1⟩, (hresp h).2, fun _ => ⟨hv.trans h, (hresp h).1⟩⟩
  · refine ⟨Or.inr ⟨hv.trans h, (hfalse h).1⟩, (hfalse h).2, fun hacc => ?_⟩
    exact absurd h (validateEntries_ne_false_of_accepted _ (fun p hp k hk =>
      getValue_accepted_of_all p.2 (hacc p (mem_of_mem_entries hp)) k hk))

/-- C8 (witness).  The request `{$find: {name: "yo"}, $set: {_id: "x"}}`. -/
theorem update_rejects_id_in_set_witness :
    validateUpdateSignature
        [("$find", [("name", .json (.str "yo"))]), ("$set", [("_id", .json (.str "x"))])]
      = .response idResponse
    ∧ (testDB.update (usersFile [yoDoc]) "users"
        [("$find", [("name", .json (.str "yo"))]), ("$set", [("_id", .json (.str "x"))])]).result
      = .ok idResponse
    ∧ (testDB.update (usersFile [yoDoc]) "users"
        [("$find", [("name", .json (.str "yo"))]), ("$set", [("_id", .json (.str "x"))])]).fs
      = usersFile [yoDoc] := by
  have h := update_rejects_id_in_set testDB (usersFile [yoDoc]) "users"
    [("$find", [("name", .json (.str "yo"))]), ("$set", [("_id", .json (.str "x"))])]
    [("_id", .json (.str "x"))] (by decide) (by decide) (by decide)
  exact ⟨(h.2.2 (by decide)).1, (h.2.2 (by decide)).2, h.2.1⟩

/-! ## Claims about delete without a filter -/

/-- C9 (failing input).  The collection holds the single document `{"1": "x", "_id": "u1"}`
(as left by `insert('users', {1: "x"})`); `delete('users')` returns
`{status: true, message: 'Removed'}` and the file still holds the document. -/
theorem delete_all_keeps_document_with_index_key :
    (testDB.delete (usersFile [[("1", .str "x"), ("_id", .str "u1")]]) "users" none).result
      = .ok (getResponse true (.text "Removed"))
    ∧ (testDB.delete (usersFile [[("1", .str "x"), ("_id", .str "u1")]]) "users" none).fs.files
        "testDB/users.json"
      = some [[("1", .str "x"), ("_id", .str "u1")]] := by
  decide

/-! ## The identifier invariant -/

/-- C10.  Let the collection hold `data`.  A successful `update` writes a collection whose
documents carry, position by position, the same `_id` as before (none changed, added or
removed).  If moreover the `_id` values of `data` are pairwise distinct, they are still
pairwise distinct after a successful `insert` whose generated identifier is not among
them, after a successful `update` and after a successful `delete`. -/
theorem ids_stay_distinct (db : Database) (fs : FileSystem) (name : String) (data : List Doc)
    (hfile : fs.files (db.collectionPath name) = some data) :
    (∀ updateData r, (db.update fs name updateData).result = .ok r → r.status = true →
      ∃ data', (db.update fs name updateData).fs.files (db.collectionPath name) = some data'
        ∧ idsOf data' = idsOf data)
    ∧ ((idsOf data).Nodup →
      (∀ uuid doc r, some (Json.str uuid) ∉ idsOf data →
        (db.insert fs uuid name doc).result = .ok r → r.status = true →
        ∃ data', (db.insert fs uuid name doc).fs.files (db.collectionPath name) = some data'
          ∧ (idsOf data').Nodup)
      ∧ (∀ updateData r, (db.update fs name updateData).result = .ok r → r.status = true →
        ∃ data', (db.update fs name updateData).fs.files (db.collectionPath name) = some data'
          ∧ (idsOf data').Nodup)
      ∧ (∀ deleteParams r, (db.delete fs name deleteParams).result = .ok r → r.status = true →
        ∃ data', (db.delete fs name deleteParams).fs.files (db.collectionPath name) = some data'
          ∧ (idsOf data').Nodup)) := by
  refine ⟨fun updateData r hres hok => update_success_ids db fs name data hfile updateData r hres hok,
    fun hdistinct => ⟨?_, ?_, ?_⟩⟩
  · intro uuid doc r hfresh hres hok
    obtain ⟨data', hfiles, hids⟩ := insert_success_ids db fs name data hfile uuid doc r hres hok
    refine ⟨data', hfiles, ?_⟩
    rw [hids]
    refine List.Nodup.append hdistinct (List.nodup_singleton _) ?_
    intro a ha hsingle
    rw [List.mem_singleton] at hsingle
    exact hfresh (hsingle ▸ ha)
  · intro updateData r hres hok
    obtain ⟨data', hfiles, hids⟩ := update_success_ids db fs name data hfile updateData r hres hok
    exact ⟨data', hfiles, by rw [hids]; exact hdistinct⟩
  · intro deleteParams r hres hok
    obtain ⟨data', hfiles, hsub⟩ :=
      delete_success_sublist db fs name data hfile deleteParams r hres hok
    exact ⟨data', hfiles, hdistinct.sublist (hsub.map _)⟩

/-- C10 (witness).  On the two stored documents `u1`, `u2`: the update of the test suite
keeps the identifiers, and deleting the documents with `id: 1` leaves distinct
identifiers. -/
theorem ids_stay_distinct_witness :
    (idsOf [yoDoc, otherDoc]).Nodup
    ∧ (∃ data', (testDB.update (usersFile [yoDoc, otherDoc]) "users" yoUpdate).fs.files
          (testDB.collectionPath "users") = some data'
        ∧ idsOf data' = idsOf [yoDoc, otherDoc])
    ∧ (∃ data', (testDB.delete (usersFile [yoDoc, otherDoc]) "users"
          (some [("id", .json (.num 1))])).fs.files (testDB.collectionPath "users") = some data'
        ∧ (idsOf data').Nodup) := by
  have h := ids_stay_distinct testDB (usersFile [yoDoc, otherDoc]) "users" [yoDoc, otherDoc]
    (by decide)
  exact ⟨by decide,
    h.1 yoUpdate (getResponse true (.text "Data Updated")) (by decide) rfl,
    (h.2 (by decide)).2.2 (some [("id", .json (.num 1))])
      (getResponse true (.text "Removed")) (by decide) rfl⟩

/-! ## More on the validator -/

theorem getOwn_of_mem_entries {α : Type} {fields : List (String × α)} {p : String × α}
    (h : p ∈ entries fields) : getOwn fields p.1 = some p.2 := by
  unfold entries at h
  obtain ⟨k, _, hk⟩ := List.mem_filterMap.1 h
  cases hg : getOwn fields k with
  | none => simp [hg] at hk
  | some v =>
    simp only [hg, Option.map_some', Option.some.injEq] at hk
    subst hk
    exact hg

theorem exists_getOwn_of_mem_ownKeys {α : Type} {fields : List (String × α)} {k : String}
    (h : k ∈ ownKeys fields) : ∃ v, getOwn fields k = some v := by
  cases hg : getOwn fields k with
  | none => exact absurd ((mem_ownKeys fields k).1 h) ((getOwn_eq_none_iff fields k).1 hg)
  | some v => exact ⟨v, rfl⟩

theorem validateObject_ne_response_of_no_id (o : JsObj) (keys : List String)
    (hid : "_id" ∉ keys) : validateObject o keys ≠ some (.response idResponse) := by
  induction keys with
  | nil => simp [validateObject]
  | cons k rest ih =>
    simp only [validateObject]
    split
    · rename_i hk
      exact absurd (hk ▸ List.mem_cons_self _ _) hid
    · split
      · simp
      · exact ih (fun h => hid (List.mem_cons_of_mem _ h))

theorem validateEntries_ne_response_of_no_id (es : List (String × JsObj))
    (hid : ∀ p ∈ es, "_id" ∉ ownKeys p.2) : validateEntries es ≠ .response idResponse := by
  induction es with
  | nil => simp [validateEntries]
  | cons e rest ih =>
    obtain ⟨k, o⟩ := e
    simp only [validateEntries]
    have hne := validateObject_ne_response_of_no_id o (ownKeys o) (hid (k, o) (List.mem_cons_self _ _))
    rcases validateObject_cases o (ownKeys o) with h | h | h
    · rw [h]
      exact ih (fun p hp => hid p (List.mem_cons_of_mem _ hp))
    · exact absurd h hne
    · rw [h]
      simp

theorem not_mem_ownKeys_of_getOwn_none {α : Type} {fields : List (String × α)} {k : String}
    (h : getOwn fields k = none) : k ∉ ownKeys fields := by
  rw [mem_ownKeys]
  exact (getOwn_eq_none_iff fields k).1 h

/-- C15.  A request whose top-level keys are within `$find`, `$set`, whose sub-objects have
no `_id` key and whose values are all truthy or `false` or zero passes
`validateUpdateSignature`. -/
theorem validate_accepts_falsy_data (updateData : UpdateRequest)
    (hkeys : ∀ key ∈ updateData.map Prod.fst, key = "$find" ∨ key = "$set")
    (hnoid : ∀ key o, getOwn updateData key = some o → getOwn o "_id" = none)
    (hacc : ∀ key o k v, getOwn updateData key = some o → getOwn o k = some v →
      toBoolean v = true ∨ v = .json (.bool false) ∨ v = .json (.num 0)) :
    validateUpdateSignature updateData = .bool true := by
  have hv : validateUpdateSignature updateData = validateEntries (entries updateData) := by
    unfold validateUpdateSignature
    rw [all_validFilters_eq_true updateData hkeys]
    rfl
  rw [hv]
  rcases validateEntries_cases (entries updateData) with h | h | h
  · exact h
  · exact absurd h (validateEntries_ne_response_of_no_id _ (fun p hp =>
      not_mem_ownKeys_of_getOwn_none (hnoid p.1 p.2 (getOwn_of_mem_entries hp))))
  · refine absurd h (validateEntries_ne_false_of_accepted _ (fun p hp k hk => ?_))
    obtain ⟨v, hg⟩ := exists_getOwn_of_mem_ownKeys hk
    rw [getValue_of_getOwn hg]
    rcases hacc p.1 p.2 k v (getOwn_of_mem_entries hp) hg with h1 | h1 | h1
    · simp [acceptedValue, h1]
    · subst h1
      rfl
    · subst h1
      rfl

/-- C15 (witness).  The request `{$find: {active: false}, $set: {count: 0}}` is accepted, and
`update` applies it to the stored document `{active: false, _id: "u1"}`. -/
theorem validate_accepts_falsy_data_witness :
    validateUpdateSignature falsyUpdate = .bool true
    ∧ (testDB.update (usersFile [[("active", .bool false), ("_id", .str "u1")]]) "users"
        falsyUpdate).result = .ok (getResponse true (.text "Data Updated"))
    ∧ (testDB.update (usersFile [[("active", .bool false), ("_id", .str "u1")]]) "users"
        falsyUpdate).fs.files "testDB/users.json"
      = some [[("active", .bool false), ("_id", .str "u1"), ("count", .num 0)]] :=
  ⟨validate_accepts_falsy_data falsyUpdate (by decide)
      (by
        intro key o h
        by_cases h1 : key = "$find"
        · subst h1
          simp only [falsyUpdate, getOwn, if_true, Option.some.injEq] at h
          subst h
          rfl
        · by_cases h2 : key = "$set"
          · subst h2
            simp [falsyUpdate, getOwn] at h
            subst h
            rfl
          · simp [falsyUpdate, getOwn, Ne.symm h1, Ne.symm h2] at h)
      (by
        intro key o k v h hv
        by_cases h1 : key = "$find"
        · subst h1
          simp only [falsyUpdate, getOwn, if_true, Option.some.injEq] at h
          subst h
          by_cases hk : "active" = k
          · simp [getOwn, hk] at hv
            exact Or.inr (Or.inl hv.symm)
          · simp [getOwn, hk] at hv
        · by_cases h2 : key = "$set"
          · subst h2
            simp [falsyUpdate, getOwn] at h
            subst h
            by_cases hk : "count" = k
            · simp [getOwn, hk] at hv
              exact Or.inr (Or.inr hv.symm)
            · simp [getOwn, hk] at hv
          · simp [falsyUpdate, getOwn, Ne.symm h1, Ne.symm h2] at h),
    by decide, by decide⟩

theorem update_of_validation_false (db : Database) (fs : FileSystem) (name : String)
    (updateData : UpdateRequest) (hv : validateUpdateSignature updateData = .bool false) :
    (db.update fs name updateData).result = .ok invalidSignatureResponse
      ∧ (db.update fs name updateData).fs = fs := by
  simp [Database.update, hv, invalidSignatureResponse]

theorem update_of_validation_response (db : Database) (fs : FileSystem) (name : String)
    (updateData : UpdateRequest) (r : Response)
    (hv : validateUpdateSignature updateData = .response r) :
    (db.update fs name updateData).result = .ok r
      ∧ (db.update fs name updateData).fs = fs := by
  simp [Database.update, hv]

/-- C19.  For every value `v` and every `$set` object `s`, the request
`{$find: {_id: v}, $set: s}` makes `validateUpdateSignature` return the dedicated `_id`
response (the `_id` test runs on the keys of `$find` too); `update` returns that response
and leaves the file system as it was. -/
theorem update_rejects_id_in_find (db : Database) (fs : FileSystem) (name : String)
    (v : JsVal) (s : JsObj) :
    validateUpdateSignature [("$find", [("_id", v)]), ("$set", s)]
      = .response (getResponse false (.text "Cannot update _id it is system generated value"))
    ∧ (db.update fs name [("$find", [("_id", v)]), ("$set", s)]).result
      = .ok (getResponse false (.text "Cannot update _id it is system generated value"))
    ∧ (db.update fs name [("$find", [("_id", v)]), ("$set", s)]).fs = fs := by
  have h1 : arrayIndex? "$find" = none := by decide
  have h2 : arrayIndex? "$set" = none := by decide
  have h3 : arrayIndex? "_id" = none := by decide
  have hv : validateUpdateSignature [("$find", [("_id", v)]), ("$set", s)]
      = .response (getResponse false (.text "Cannot update _id it is system generated value")) := by
    simp [validateUpdateSignature, entries, ownKeys, h1, h2, h3, validFilters, getOwn,
      validateEntries, validateObject]
  exact ⟨hv, update_of_validation_response db fs name _ _ hv⟩

/-- C20.  In a request whose top-level keys are within `$find`, `$set` and whose sub-objects
have no `_id` key, a value that is falsy but neither `false` nor zero (the empty string,
`null`, `undefined`, `NaN`) makes `validateUpdateSignature` return `false`; `update` returns
the invalid-signature response and leaves the file system as it was. -/
theorem update_rejects_empty_values (db : Database) (fs : FileSystem) (name : String)
    (updateData : UpdateRequest)
    (hkeys : ∀ key ∈ updateData.map Prod.fst, key = "$find" ∨ key = "$set")
    (hnoid : ∀ key o, getOwn updateData key = some o → getOwn o "_id" = none)
    (hbad : ∃ key o k v, getOwn updateData key = some o ∧ getOwn o k = some v
      ∧ toBoolean v = false ∧ v ≠ .json (.bool false) ∧ v ≠ .json (.num 0)) :
    validateUpdateSignature updateData = .bool false
    ∧ (db.update fs name updateData).result
        = .ok (getResponse false (.text
            "Invalid Update Data Object Signature. Please call updateSignature() to check the valid object signature"))
    ∧ (db.update fs name updateData).fs = fs := by
  have hv : validateUpdateSignature updateData = validateEntries (entries updateData) := by
    unfold validateUpdateSignature
    rw [all_validFilters_eq_true updateData hkeys]
    rfl
  have hfalse : validateUpdateSignature updateData = .bool false := by
    rw [hv]
    rcases validateEntries_cases (entries updateData) with h | h | h
    · exfalso
      obtain ⟨key, o, k, v, ho, hk, hfalsy, hnf, hnz⟩ := hbad
      have hacc := (validateObject_eq_none
        (validateEntries_eq_true h (key, o) (mem_entries_of_getOwn ho)) k
        ((mem_ownKeys o k).2 (mem_keys_of_getOwn hk))).2
      rw [getValue_of_getOwn hk] at hacc
      cases v with
      | undefined => simp [acceptedValue, toBoolean, isfalsyValue, strictEquals] at hacc
      | nan => simp [acceptedValue, toBoolean, isfalsyValue, strictEquals] at hacc
      | inf n => simp [toBoolean] at hfalsy
      | json j =>
        cases j with
        | null => simp [acceptedValue, toBoolean, isfalsyValue, strictEquals] at hacc
        | bool b =>
          cases b
          · exact hnf rfl
          · simp [toBoolean] at hfalsy
        | num n =>
          by_cases hn : n = 0
          · subst hn
            exact hnz rfl
          · simp [toBoolean, hn] at hfalsy
        | str t =>
          simp only [toBoolean, bne_eq_false_iff_eq] at hfalsy
          subst hfalsy
          simp [acceptedValue, toBoolean, isfalsyValue, strictEquals] at hacc
        | arr xs => simp [toBoolean] at hfalsy
        | obj fields => simp [toBoolean] at hfalsy
    · exact absurd h (validateEntries_ne_response_of_no_id _ (fun p hp =>
        not_mem_ownKeys_of_getOwn_none (hnoid p.1 p.2 (getOwn_of_mem_entries hp))))
    · exact h
  exact ⟨hfalse, update_of_validation_false db fs name updateData hfalse⟩

/-- C20 (witness).  The request `{$find: {name: ""}, $set: {new: "v"}}` against a stored
collection. -/
theorem update_rejects_empty_values_witness :
    validateUpdateSignature
        [("$find", [("name", .json (.str ""))]), ("$set", [("new", .json (.str "v"))])]
      = .bool false
    ∧ (testDB.update (usersFile [yoDoc]) "users"
        [("$find", [("name", .json (.str ""))]), ("$set", [("new", .json (.str "v"))])]).result
      = .ok invalidSignatureResponse
    ∧ (testDB.update (usersFile [yoDoc]) "users"
        [("$find", [("name", .json (.str ""))]), ("$set", [("new", .json (.str "v"))])]).fs
      = usersFile [yoDoc] :=
  update_rejects_empty_values testDB (usersFile [yoDoc]) "users"
    [("$find", [("name", .json (.str ""))]), ("$set", [("new", .json (.str "v"))])]
    (by decide)
    (by
      intro key o h
      by_cases h1 : key = "$find"
      · subst h1
        simp only [getOwn, if_true, Option.some.injEq] at h
        subst h
        rfl
      · by_cases h2 : key = "$set"
        · subst h2
          simp [getOwn] at h
          subst h
          rfl
        · simp [getOwn, Ne.symm h1, Ne.symm h2] at h)
    ⟨"$find", [("name", .json (.str ""))], "name", .json (.str ""), by decide, by decide,
      by decide, by decide, by decide⟩

/-! ## Claims about a missing collection under update and delete -/

/-- C16.  When the collection file is missing, `delete` raises an `Error` for every filter,
absent or present; it returns no response and the file system, in which the file is still
missing, is as it was. -/
theorem delete_missing_collection_throws (db : Database) (fs : FileSystem) (name : String)
    (deleteParams : Option JsObj)
    (hmissing : fs.files (db.collectionPath name) = none) :
    (db.delete fs name deleteParams).result
      = .error (.error ("There is no " ++ name
          ++ " collection available, Try creating one first." ++ "Occured while performing Delete"))
    ∧ (db.delete fs name deleteParams).fs = fs
    ∧ (db.delete fs name deleteParams).fs.files (db.collectionPath name) = none := by
  have hfind := find_of_missing_file db fs name (some (deleteParams.getD [])) true
    hmissing
  simp [Database.delete, hfind, getResponse, Message.toText, hmissing]

/-- C16 (witness).  `delete('users', {id: 1})` on a database without files. -/
theorem delete_missing_collection_throws_witness :
    noFile.files (testDB.collectionPath "users") = none
    ∧ (testDB.delete noFile "users" (some [("id", .json (.num 1))])).result
      = .error (.error ("There is no " ++ "users"
          ++ " collection available, Try creating one first." ++ "Occured while performing Delete"))
    ∧ (testDB.delete noFile "users" (some [("id", .json (.num 1))])).fs = noFile :=
  ⟨rfl,
    (delete_missing_collection_throws testDB noFile "users" (some [("id", .json (.num 1))]) rfl).1,
    (delete_missing_collection_throws testDB noFile "users" (some [("id", .json (.num 1))]) rfl).2.1⟩

/-- C17 (counterexample).  The request of the test suite has a valid signature and the
collection file is missing: `update` returns the not-found response; it raises nothing. -/
theorem missing_collection_update_returns_response :
    validateUpdateSignature yoUpdate = .bool true
    ∧ (testDB.update noFile "users" yoUpdate).result
      = .ok (getResponse false
          (.text "There is no users collection available, Try creating one first.")) := by
  decide

/-- C17 (amended).  When the collection file is missing and the request passes
`validateUpdateSignature`, `update` returns the recovered failure response
`{status: false, message: 'There is no <name> collection available, Try creating one
first.'}` and leaves the file system as it was; nothing is raised. -/
theorem update_missing_collection (db : Database) (fs : FileSystem) (name : String)
    (updateData : UpdateRequest)
    (hmissing : fs.files (db.collectionPath name) = none)
    (hvalid : validateUpdateSignature updateData = .bool true) :
    (db.update fs name updateData).result
      = .ok (getResponse false
          (.text ("There is no " ++ name ++ " collection available, Try creating one first.")))
    ∧ (db.update fs name updateData).fs = fs := by
  have hfind := find_of_missing_file db fs name (getOwn updateData "$find") true
    hmissing
  simp [Database.update, hvalid, hfind, getResponse]

/-- C17 (witness).  The update of the test suite on a database without files. -/
theorem update_missing_collection_witness :
    noFile.files (testDB.collectionPath "users") = none
    ∧ validateUpdateSignature yoUpdate = .bool true
    ∧ (testDB.update noFile "users" yoUpdate).result
      = .ok (getResponse false
          (.text ("There is no " ++ "users" ++ " collection available, Try creating one first.")))
    ∧ (testDB.update noFile "users" yoUpdate).fs = noFile :=
  ⟨rfl, by decide, update_missing_collection testDB noFile "users" yoUpdate rfl (by decide)⟩

/-! ## Claims about the index mode and the empty filter -/

theorem length_matchesWithIndex (filterParam : JsObj) (start : Nat) (data : List Doc) :
    (matchesWithIndex filterParam start data).length
      = (data.filter (matchesFilter filterParam)).length := by
  induction data generalizing start with
  | nil => rfl
  | cons each rest ih =>
    rw [matchesWithIndex_cons]
    cases hm : matchesFilter filterParam each <;> simp [hm, ih]

/-- With the empty object as filter `find` returns the whole decoded array, whatever the
flag. -/
theorem find_empty_filter (db : Database) (fs : FileSystem) (name : String) (data : List Doc)
    (getByIndex : Bool) (hfile : fs.files (db.collectionPath name) = some data) :
    db.find fs name (some []) getByIndex = .ok (getResponse true (.docs data)) := by
  have hempty : isEmpty (some ([] : JsObj)) = true := by decide
  simp [Database.find, hfile, hempty]

/-- C13 (failing input).  The collection holds one document
`{"id": 1, "hasOwnProperty": 1, "_id": "u1"}`, which the filter `{id: 1}` matches at
position 0; `find('users', {id: 1}, true)` raises a `TypeError` instead of returning
`[{0: document}]`. -/
theorem find_with_index_throws_on_hasOwnProperty_field :
    matchesWithIndex [("id", .json (.num 1))] 0 [shadowDoc] = [indexEntry 0 shadowDoc]
    ∧ testDB.find (usersFile [shadowDoc]) "users" (some [("id", .json (.num 1))]) true
      = .error .typeError := by
  decide

/-- C14 (failing input).  The collection holds one document and `find('users', undefined,
true)` is called: the response is `{status: true, message: []}`, not the stored array. -/
theorem find_absent_filter_with_index_returns_nothing :
    testDB.find (usersFile [yoDoc]) "users" none true = .ok (getResponse true (.docs [])) := by
  decide

/-- C18 (failing input).  The collection holds the document of the test suite and the
request is `{$find: {}, $set: {new: "v"}}`, which passes validation; `update` raises a
`TypeError` and returns no response. -/
theorem update_empty_find_throws :
    validateUpdateSignature [("$find", []), ("$set", [("new", .json (.str "v"))])] = .bool true
    ∧ (testDB.update (usersFile [yoDoc]) "users"
        [("$find", []), ("$set", [("new", .json (.str "v"))])]).result
      = .error .typeError := by
  decide

/-- C11 (failing input).  `insert('users', {hasOwnProperty: 1})` into a missing collection
succeeds with identifier `u1`; `find('users', {_id: "u1"})` then raises a `TypeError`
instead of returning the inserted document. -/
theorem find_by_id_throws_after_insert_of_hasOwnProperty :
    (testDB.insert noFile "u1" "users" [("hasOwnProperty", .json (.num 1))]).result
      = .ok (getResponse true (.text "Data inserted"))
    ∧ (testDB.insert noFile "u1" "users" [("hasOwnProperty", .json (.num 1))]).fs.files
        "testDB/users.json" = some [[("hasOwnProperty", .num 1), ("_id", .str "u1")]]
    ∧ testDB.find (testDB.insert noFile "u1" "users" [("hasOwnProperty", .json (.num 1))]).fs
        "users" (some [("_id", .json (.str "u1"))]) false
      = .error .typeError := by
  decide

/-! ## Writes that succeed -/

theorem submit_of_writable (fs : FileSystem) (path : String) (content : List Doc)
    (h : fs.writeError path = none) : submit fs path content = (fs.write path content, none) := by
  simp [submit, h, FileSystem.write]

theorem files_write_same (fs : FileSystem) (path : String) (content : List Doc) :
    (fs.write path content).files path = some content := by
  simp [FileSystem.write]

theorem writeError_write (fs : FileSystem) (path : String) (content : List Doc) :
    (fs.write path content).writeError = fs.writeError := rfl

theorem insert_of_writable (db : Database) (fs : FileSystem) (uuid name : String)
    (data : JsObj) (hfalsy : toBoolean (getValue data "_id") = false)
    (hwrite : fs.writeError (db.collectionPath name) = none) :
    db.insert fs uuid name data
      = { fs := fs.write (db.collectionPath name)
            ((fs.files (db.collectionPath name)).getD []
              ++ [stringifyObject (assign data "_id" (.json (.str uuid)))])
          result := .ok (getResponse true (.text "Data inserted")) } := by
  rw [insert_of_falsy_id db fs uuid name data hfalsy, submit_of_writable _ _ _ hwrite]

theorem stringify_assign_id_of_absent (d : Doc) (uuid : String) (hid : getOwn d "_id" = none) :
    stringifyObject (assign d.toObject "_id" (.json (.str uuid))) = d ++ [("_id", .str uuid)] := by
  rw [assign_of_absent _ _ _ (by rw [getOwn_toObject, hid]; rfl), stringifyObject_append,
    stringifyObject_toObject]
  rfl

theorem toBoolean_id_of_absent (d : Doc) (hid : getOwn d "_id" = none) :
    toBoolean (getValue d.toObject "_id") = false := by
  simp [getValue, getOwn_toObject, hid, toBoolean]

theorem delete_of_plain (db : Database) (fs : FileSystem) (name : String) (data : List Doc)
    (filterParam : JsObj)
    (hfile : fs.files (db.collectionPath name) = some data)
    (hplain : ∀ each ∈ data, hasOwn each "hasOwnProperty" = false)
    (hne : filterParam ≠ []) :
    db.delete fs name (some filterParam)
      = match submit fs (db.collectionPath name)
          (deleteLoop data (matchesWithIndex filterParam 0 data)) with
        | (fs', some submitError) =>
          { fs := fs'
            result := .ok (getResponse false
              (.text ("Error while updating data" ++ "\n" ++ submitError))) }
        | (fs', none) => { fs := fs', result := .ok (getResponse true (.text "Removed")) } := by
  simp only [Database.delete, Option.getD_some,
    find_of_plain db fs name data filterParam true hfile hplain hne,
    find_all db fs name data hfile, getResponse, if_true, Bool.not_true, Bool.false_eq_true,
    if_false]

/-! ## Lookup by identifier after a sequence of inserts -/

theorem getOwn_append_of_some {α : Type} (o o' : List (String × α)) (k : String) (v : α)
    (h : getOwn o k = some v) : getOwn (o ++ o') k = some v := by
  induction o with
  | nil => cases h
  | cons p rest ih =>
    obtain ⟨k', v'⟩ := p
    by_cases hk : k' = k
    · simpa [getOwn, hk] using h
    · simp only [getOwn, hk, if_false, List.cons_append] at h ⊢
      exact ih h

theorem getOwn_append_of_none {α : Type} (o o' : List (String × α)) (k : String)
    (h : getOwn o k = none) : getOwn (o ++ o') k = getOwn o' k := by
  induction o with
  | nil => rfl
  | cons p rest ih =>
    obtain ⟨k', v'⟩ := p
    by_cases hk : k' = k
    · simp [getOwn, hk] at h
    · simp only [getOwn, hk, if_false, List.cons_append] at h ⊢
      exact ih h

theorem matchesFilter_append (filterParam : JsObj) (d extra : Doc)
    (h : matchesFilter filterParam d = true) : matchesFilter filterParam (d ++ extra) = true := by
  simp only [matchesFilter, List.all_eq_true] at h ⊢
  intro p hp
  have := h p hp
  cases hg : getOwn d p.1 with
  | none => simp [hg] at this
  | some v =>
    rw [getOwn_append_of_some d extra p.1 v hg]
    simpa [hg] using this

theorem matchesFilter_id (d : Doc) (u u' : String) (hid : getOwn d "_id" = none) :
    matchesFilter [("_id", .json (.str u))] (d ++ [("_id", .str u')]) = (u' == u) := by
  simp [matchesFilter, getOwn_append_of_none d _ "_id" hid, getOwn, getValue, strictEquals]

theorem hasOwn_eq_false_iff {α : Type} (fields : List (String × α)) (k : String) :
    hasOwn fields k = false ↔ getOwn fields k = none := by
  unfold hasOwn
  cases getOwn fields k <;> simp

theorem hasOwn_append_id (d : Doc) (u : String)
    (hplain : hasOwn d "hasOwnProperty" = false) :
    hasOwn (d ++ [("_id", Json.str u)]) "hasOwnProperty" = false := by
  rw [hasOwn_eq_false_iff] at hplain ⊢
  rw [getOwn_append_of_none d _ _ hplain]
  simp [getOwn]

theorem filter_fst_eq_of_nodup {α : Type} (docs : List (String × α))
    (hdistinct : (docs.map Prod.fst).Nodup) (p : String × α) (hp : p ∈ docs) :
    docs.filter (fun q => q.1 == p.1) = [p] := by
  induction docs with
  | nil => cases hp
  | cons q rest ih =>
    simp only [List.map_cons, List.nodup_cons] at hdistinct
    rcases List.mem_cons.1 hp with rfl | hp'
    · have hrest : rest.filter (fun q => q.1 == p.1) = [] := by
        rw [List.filter_eq_nil_iff]
        intro r hr hrp
        have hrp' : r.1 = p.1 := by simpa using hrp
        exact hdistinct.1 (hrp' ▸ List.mem_map_of_mem _ hr)
      simp [List.filter_cons, hrest]
    · have hne : (q.1 == p.1) = false := by
        rw [beq_eq_false_iff_ne]
        intro h
        exact hdistinct.1 (h ▸ List.mem_map_of_mem _ hp')
      simp [List.filter_cons, hne, ih hdistinct.2 hp']

theorem filter_matches_id (docs : List (String × Doc)) (u : String)
    (hids : ∀ p ∈ docs, getOwn p.2 "_id" = none) :
    (docs.map (fun q => q.2 ++ [("_id", Json.str q.1)])).filter
        (matchesFilter [("_id", .json (.str u))])
      = (docs.filter (fun q => q.1 == u)).map (fun q => q.2 ++ [("_id", Json.str q.1)]) := by
  induction docs with
  | nil => rfl
  | cons q rest ih =>
    have hq := matchesFilter_id q.2 u q.1 (hids q (List.mem_cons_self _ _))
    have hrest := ih (fun r hr => hids r (List.mem_cons_of_mem _ hr))
    simp only [List.map_cons, List.filter_cons, hq, hrest]
    cases q.1 == u <;> simp

theorem insertAll_files (db : Database) (name : String) (docs : List (String × Doc))
    (fs : FileSystem) (hwrite : fs.writeError (db.collectionPath name) = none)
    (hids : ∀ p ∈ docs, getOwn p.2 "_id" = none) :
    (insertAll db name fs (docs.map (fun p => (p.1, p.2.toObject)))).files
        (db.collectionPath name)
      = if docs = [] then fs.files (db.collectionPath name)
        else some ((fs.files (db.collectionPath name)).getD []
          ++ docs.map (fun p => p.2 ++ [("_id", .str p.1)])) := by
  induction docs generalizing fs with
  | nil => rfl
  | cons p rest ih =>
    obtain ⟨u, d⟩ := p
    have hd := hids (u, d) (List.mem_cons_self _ _)
    simp only [List.map_cons, insertAll, if_false, reduceCtorEq]
    rw [insert_of_writable db fs u name d.toObject (toBoolean_id_of_absent d hd) hwrite,
      stringify_assign_id_of_absent d u hd]
    rw [ih _ (by rw [writeError_write]; exact hwrite)
      (fun q hq => hids q (List.mem_cons_of_mem _ hq)), files_write_same]
    cases rest with
    | nil => simp
    | cons q rest' => simp

/-- After inserting documents without `_id` and without a field `hasOwnProperty` into a
missing collection, with pairwise distinct identifiers and succeeding writes, `find` by an
assigned identifier returns exactly the document inserted with it, carrying that `_id`. -/
theorem find_by_id_after_inserts (db : Database) (name : String) (docs : List (String × Doc))
    (fs : FileSystem) (hfresh : fs.files (db.collectionPath name) = none)
    (hwrite : fs.writeError (db.collectionPath name) = none)
    (hids : ∀ p ∈ docs, getOwn p.2 "_id" = none)
    (hplain : ∀ p ∈ docs, hasOwn p.2 "hasOwnProperty" = false)
    (hdistinct : (docs.map Prod.fst).Nodup) (p : String × Doc) (hp : p ∈ docs) :
    db.find (insertAll db name fs (docs.map (fun p => (p.1, p.2.toObject)))) name
        (some [("_id", .json (.str p.1))]) false
      = .ok (getResponse true (.docs [p.2 ++ [("_id", .str p.1)]])) := by
  have hfiles := insertAll_files db name docs fs hwrite hids
  have hne : docs ≠ [] := List.ne_nil_of_mem hp
  simp only [hne, if_false, hfresh, Option.getD_none, List.nil_append] at hfiles
  rw [find_of_plain db _ name _ [("_id", .json (.str p.1))] false hfiles
    (by
      intro each heach
      obtain ⟨q, hq, rfl⟩ := List.mem_map.1 heach
      exact hasOwn_append_id q.2 q.1 (hplain q hq))
    (by simp)]
  simp only [Bool.false_eq_true, if_false]
  rw [filter_matches_id docs p.1 hids, filter_fst_eq_of_nodup docs hdistinct p hp]
  rfl

/-! ## The round trip -/

theorem deleteLoop_single_match (updated : Doc) :
    deleteLoop [updated] [indexEntry 0 updated] = [] := by
  simp only [deleteLoop, indexEntry, ownKeys_singleton, List.head?_cons, toIntegerOrInfinity,
    stringToIntegerOrInfinity_toString]
  rfl

/-- C12 (failing input).  Into a missing collection insert the document of the test suite;
apply `{$find: {id: 1}, $set: {hasOwnProperty: 1}}`, which passes validation and whose
`$find` the document satisfies; both calls succeed and `find('users')` returns the single
document with the field added.  `delete('users', {id: 1})`, whose filter the updated
document satisfies, then raises a `TypeError`, and the final `find('users')` still returns
the document, not `[]`. -/
theorem round_trip_throws_after_set_of_hasOwnProperty :
    noFile.files (testDB.collectionPath "users") = none
    ∧ validateUpdateSignature shadowingUpdate = .bool true
    ∧ matchesFilter [("id", .json (.num 1))] yoInput = true
    ∧ (testDB.insert noFile "u1" "users" yoInput.toObject).result
      = .ok (getResponse true (.text "Data inserted"))
    ∧ (testDB.update (testDB.insert noFile "u1" "users" yoInput.toObject).fs "users"
        shadowingUpdate).result
      = .ok (getResponse true (.text "Data Updated"))
    ∧ testDB.find
        (testDB.update (testDB.insert noFile "u1" "users" yoInput.toObject).fs "users"
          shadowingUpdate).fs "users" none false
      = .ok (getResponse true (.docs [yoDoc ++ [("hasOwnProperty", .num 1)]]))
    ∧ matchesFilter [("id", .json (.num 1))] (yoDoc ++ [("hasOwnProperty", .num 1)]) = true
    ∧ (testDB.delete
        (testDB.update (testDB.insert noFile "u1" "users" yoInput.toObject).fs "users"
          shadowingUpdate).fs
        "users" (some [("id", .json (.num 1))])).result
      = .error .typeError
    ∧ testDB.find
        (testDB.delete
          (testDB.update (testDB.insert noFile "u1" "users" yoInput.toObject).fs "users"
            shadowingUpdate).fs
          "users" (some [("id", .json (.num 1))])).fs
        "users" none false
      = .ok (getResponse true (.docs [yoDoc ++ [("hasOwnProperty", .num 1)]])) := by
  decide

/-- Start from a missing or empty collection whose writes succeed.  Insert a
document `d` that has neither `_id` nor a field `hasOwnProperty`; apply an update that
passes `validateUpdateSignature`, whose non-empty `$find` is satisfied by `d` and whose
`$set` has no key `hasOwnProperty`.  Both calls succeed, and `find(name)` then returns
exactly one document: `d` with the generated `_id`, in which every key of `$set` holds the
JSON encoding of the `$set` value.  A `delete` with any non-empty filter that this document
satisfies returns `'Removed'`, leaves the empty array in the file, and the final
`find(name)` returns `{status: true, message: []}`. -/
theorem round_trip_of_plain_input (db : Database) (fs : FileSystem) (uuid name : String)
    (d : Doc) (updateData : UpdateRequest) (filterParam : JsObj)
    (hfresh : fs.files (db.collectionPath name) = none
      ∨ fs.files (db.collectionPath name) = some [])
    (hwrite : fs.writeError (db.collectionPath name) = none)
    (hid : getOwn d "_id" = none)
    (hplain : hasOwn d "hasOwnProperty" = false)
    (hvalid : validateUpdateSignature updateData = .bool true)
    (hfind : getOwn updateData "$find" = some filterParam) (hne : filterParam ≠ [])
    (hsat : matchesFilter filterParam d = true)
    (hsetPlain : (getOwn updateData "$set").bind (fun s => getOwn s "hasOwnProperty") = none) :
    (db.insert fs uuid name d.toObject).result = .ok (getResponse true (.text "Data inserted"))
    ∧ (db.update (db.insert fs uuid name d.toObject).fs name updateData).result
        = .ok (getResponse true (.text "Data Updated"))
    ∧ ∃ updated,
        db.find (db.update (db.insert fs uuid name d.toObject).fs name updateData).fs name
            none false
          = .ok (getResponse true (.docs [updated]))
        ∧ (∀ key, getOwn updated key
            = match (getOwn updateData "$set").bind (fun s => getOwn s key) with
              | some value => value.toJson?
              | none => getOwn (d ++ [("_id", .str uuid)]) key)
        ∧ ∀ deleteParams, deleteParams ≠ [] → matchesFilter deleteParams updated = true →
            (db.delete (db.update (db.insert fs uuid name d.toObject).fs name updateData).fs
                name (some deleteParams)).result
              = .ok (getResponse true (.text "Removed"))
            ∧ (db.delete (db.update (db.insert fs uuid name d.toObject).fs name updateData).fs
                name (some deleteParams)).fs.files (db.collectionPath name) = some []
            ∧ db.find
                (db.delete (db.update (db.insert fs uuid name d.toObject).fs name updateData).fs
                  name (some deleteParams)).fs name none false
              = .ok (getResponse true (.docs [])) := by
  have hstored : (fs.files (db.collectionPath name)).getD [] = [] := by
    rcases hfresh with h | h <;> simp [h]
  have hins := insert_of_writable db fs uuid name d.toObject (toBoolean_id_of_absent d hid) hwrite
  rw [stringify_assign_id_of_absent d uuid hid, hstored, List.nil_append] at hins
  rw [hins]
  have hfile1 := files_write_same fs (db.collectionPath name) [d ++ [("_id", .str uuid)]]
  have hplain1 : ∀ each ∈ [d ++ [("_id", Json.str uuid)]],
      hasOwn each "hasOwnProperty" = false := by
    intro each heach
    rw [List.mem_singleton] at heach
    subst heach
    exact hasOwn_append_id d uuid hplain
  have hupd := update_of_plain db _ name _ updateData filterParam hfile1 hplain1 hvalid hfind hne
  rw [submit_of_writable _ _ _ (by rw [writeError_write]; exact hwrite)] at hupd
  simp only [List.map_cons, List.map_nil, matchesFilter_append filterParam d _ hsat,
    if_true] at hupd
  rw [hupd]
  have hchar : ∀ key,
      getOwn (stringifyObject (applySet (getOwn updateData "$set")
        (Doc.toObject (d ++ [("_id", Json.str uuid)])))) key
        = match (getOwn updateData "$set").bind (fun s => getOwn s key) with
          | some value => value.toJson?
          | none => getOwn (d ++ [("_id", .str uuid)]) key := by
    intro key
    cases hset : getOwn updateData "$set" with
    | none => simp [applySet, stringifyObject_toObject]
    | some s =>
      rw [getOwn_stringify_applySet s _
        (fun k hk => (validate_true_object updateData "$set" s hvalid hset k hk).2)]
      rfl
  refine ⟨rfl, rfl, _, find_all db _ name _ (files_write_same _ _ _), hchar, ?_⟩
  intro deleteParams hdne hdsat
  have hplain2 : ∀ each ∈ [stringifyObject (applySet (getOwn updateData "$set")
      (Doc.toObject (d ++ [("_id", Json.str uuid)])))],
      hasOwn each "hasOwnProperty" = false := by
    intro each heach
    rw [List.mem_singleton] at heach
    subst heach
    rw [hasOwn_eq_false_iff, hchar, hsetPlain]
    exact (hasOwn_eq_false_iff _ _).1 (hasOwn_append_id d uuid hplain)
  have hfile2 := files_write_same
    (fs.write (db.collectionPath name) [d ++ [("_id", .str uuid)]]) (db.collectionPath name)
    [stringifyObject (applySet (getOwn updateData "$set")
      (Doc.toObject (d ++ [("_id", Json.str uuid)])))]
  have hdel := delete_of_plain db _ name _ deleteParams hfile2 hplain2 hdne
  rw [submit_of_writable _ _ _ (by rw [writeError_write, writeError_write]; exact hwrite)] at hdel
  have hm : matchesWithIndex deleteParams 0
      [stringifyObject (applySet (getOwn updateData "$set")
        (Doc.toObject (d ++ [("_id", Json.str uuid)])))]
      = [indexEntry 0 (stringifyObject (applySet (getOwn updateData "$set")
        (Doc.toObject (d ++ [("_id", Json.str uuid)]))))] := by
    rw [matchesWithIndex_cons, hdsat]
    simp [matchesWithIndex]
  rw [hm, deleteLoop_single_match] at hdel
  rw [hdel]
  exact ⟨rfl, files_write_same _ _ _, find_all db _ name _ (files_write_same _ _ _)⟩

end JsonDb
